import Mathlib

set_option maxRecDepth 65536

/- Shallow embedding of src/plugins/sql/sql_plugin.c (mqtt-sql-admin).

   Modeling conventions:
   - C machine integers are Nat; an assignment to a C `unsigned char` is
     modeled by an explicit `% 256`; C `& 0xff` / `& 0x1f` masks are kept
     as `&&&`.
   - C strings and byte buffers are `List Char` and `List Nat`; indexing
     `buf[i]` is `List.getD i`.
   - Wall-clock reads (`platform_utime`) are passed in as parameters.
   - sqlite is modeled by a list of rows; the prepared statements of
     mosquitto_plugin_init (insert, delete by topic+ulid, select latest
     ulid for a topic) are modeled by the corresponding list operations. -/

/-- Crockford base-32 alphabet in the encoding order of the `set` table of
`ulid_encode` (the hex bytes 0x30..0x5a of the source, i.e. digits then
uppercase consonants without I, L, O, U). -/
def encAlphabet : List Char :=
  ['0','1','2','3','4','5','6','7','8','9','A','B','C','D','E','F',
   'G','H','J','K','M','N','P','Q','R','S','T','V','W','X','Y','Z']

/-- The 256-entry `set` table of `ulid_encode`: the 32-character alphabet
repeated 8 times (the source lists all 256 bytes literally). -/
def encTable : List Char := (List.replicate 8 encAlphabet).flatten

/-- Indexing into the `set` table (the index is always < 256 in the source). -/
def set (i : Nat) : Char := encTable.getD i '0'

/-- Decode values of the 26 uppercase letters A..Z in the `v` table of
`ulid_decode`: positions 64+1 .. 64+26 of the table (I and L decode to 1,
O decodes to 0, U is invalid). -/
def decLetters : List Int :=
  [10, 11, 12, 13, 14, 15, 16, 17, 1, 18, 19, 1, 20, 21, 0,
   22, 23, 24, 25, 26, -1, 27, 28, 29, 30, 31]

/-- The 256-entry `v` table of `ulid_decode`: -1 on non-alphabet bytes,
0..9 on ASCII digits, and `decLetters` on both the uppercase and the
lowercase letter range. -/
def decTable : List Int :=
  List.replicate 48 (-1) ++ [0, 1, 2, 3, 4, 5, 6, 7, 8, 9] ++
  List.replicate 7 (-1) ++ decLetters ++
  List.replicate 6 (-1) ++ decLetters ++ List.replicate 133 (-1)

/-- Indexing into the `v` table by character code, `v[(int)s[i]]` of the
source. -/
def v (c : Char) : Int := decTable.getD c.toNat (-1)

/-- `ulid_encode`: the 16-byte buffer becomes 26 base-32 characters (the
trailing NUL terminator `str[26] = 0` of the source is left implicit). -/
def ulid_encode (u : List Nat) : List Char :=
  let b := fun i => u.getD i 0
  [set (b 0 >>> 5),
   set (b 0 >>> 0),
   set (b 1 >>> 3),
   set ((b 1 <<< 2 ||| b 2 >>> 6) &&& 0x1f),
   set (b 2 >>> 1),
   set ((b 2 <<< 4 ||| b 3 >>> 4) &&& 0x1f),
   set ((b 3 <<< 1 ||| b 4 >>> 7) &&& 0x1f),
   set (b 4 >>> 2),
   set ((b 4 <<< 3 ||| b 5 >>> 5) &&& 0x1f),
   set (b 5 >>> 0),
   set (b 6 >>> 3),
   set ((b 6 <<< 2 ||| b 7 >>> 6) &&& 0x1f),
   set (b 7 >>> 1),
   set ((b 7 <<< 4 ||| b 8 >>> 4) &&& 0x1f),
   set ((b 8 <<< 1 ||| b 9 >>> 7) &&& 0x1f),
   set (b 9 >>> 2),
   set ((b 9 <<< 3 ||| b 10 >>> 5) &&& 0x1f),
   set (b 10 >>> 0),
   set (b 11 >>> 3),
   set ((b 11 <<< 2 ||| b 12 >>> 6) &&& 0x1f),
   set (b 12 >>> 1),
   set ((b 12 <<< 4 ||| b 13 >>> 4) &&& 0x1f),
   set ((b 13 <<< 1 ||| b 14 >>> 7) &&& 0x1f),
   set (b 14 >>> 2),
   set ((b 14 <<< 3 ||| b 15 >>> 5) &&& 0x1f),
   set (b 15 >>> 0)]

/-- The NUL character, the `getD` default modeling reading past a C string. -/
def nulChar : Char := Char.ofNat 0

/-- `ulid_decode`: returns error code 1 when the first character encodes
more than 3 bits, error code 2 when any of the 26 characters is outside
the (case-insensitive) alphabet, and otherwise the 16 reassembled bytes;
each byte assignment truncates to `unsigned char`, hence the `% 256`. -/
def ulid_decode (s : List Char) : Except Nat (List Nat) :=
  let c := fun i => s.getD i nulChar
  if v (c 0) > 7 then .error 1
  else if (List.range 26).any (fun i => v (c i) == -1) then .error 2
  else
    let w := fun i => (v (c i)).toNat
    .ok [(w 0 <<< 5 ||| w 1 >>> 0) % 256,
         (w 2 <<< 3 ||| w 3 >>> 2) % 256,
         (w 3 <<< 6 ||| w 4 <<< 1 ||| w 5 >>> 4) % 256,
         (w 5 <<< 4 ||| w 6 >>> 1) % 256,
         (w 6 <<< 7 ||| w 7 <<< 2 ||| w 8 >>> 3) % 256,
         (w 8 <<< 5 ||| w 9 >>> 0) % 256,
         (w 10 <<< 3 ||| w 11 >>> 2) % 256,
         (w 11 <<< 6 ||| w 12 <<< 1 ||| w 13 >>> 4) % 256,
         (w 13 <<< 4 ||| w 14 >>> 1) % 256,
         (w 14 <<< 7 ||| w 15 <<< 2 ||| w 16 >>> 3) % 256,
         (w 16 <<< 5 ||| w 17 >>> 0) % 256,
         (w 18 <<< 3 ||| w 19 >>> 2) % 256,
         (w 19 <<< 6 ||| w 20 <<< 1 ||| w 21 >>> 4) % 256,
         (w 21 <<< 4 ||| w 22 >>> 1) % 256,
         (w 22 <<< 7 ||| w 23 <<< 2 ||| w 24 >>> 3) % 256,
         (w 24 <<< 5 ||| w 25 >>> 0) % 256]

deriving instance DecidableEq for Except

/-- A character is canonical when it is produced by `ulid_encode`, i.e. it
is in the 32-character alphabet in its uppercase form. -/
def canonicalChar (c : Char) : Prop := 0 ≤ v c ∧ set (v c).toNat = c

instance (c : Char) : Decidable (canonicalChar c) := by
  unfold canonicalChar
  infer_instance

/-- `topic_matches_pattern` of the source: the character-walking loop.  The
first arm is the `while (*p && *t)` body; the second arm is the code after
the loop (the explicit `/+` check of the source returns 0 exactly like the
final fall-through). -/
def topic_matches_pattern : List Char → List Char → Bool
  | pc :: pr, tc :: tr =>
    if pc = '#' then true
    else if pc = '+' then
      let tr2 := (tc :: tr).dropWhile (fun c => c != '/')
      if pr ≠ [] ∧ pr.head? ≠ some '/' then false
      else topic_matches_pattern pr tr2
    else if pc = tc then topic_matches_pattern pr tr
    else false
  | p, t =>
    if p.head? = some '#' then true
    else if p = [] ∧ t = [] then true
    else if p = ['/', '+'] ∧ t = [] then false
    else false

/-- `is_topic_excluded`: some configured pattern matches the topic. -/
def is_topic_excluded (patterns : List (List Char)) (topic : List Char) : Bool :=
  patterns.any (fun p => topic_matches_pattern p topic)

/-- Split a string into its topic levels at every `/` (the shape MQTT
semantics speak about: an empty string is one empty level, a trailing `/`
produces a trailing empty level). -/
def splitLevels : List Char → List (List Char)
  | [] => [[]]
  | c :: rest =>
    if c = '/' then [] :: splitLevels rest
    else
      match splitLevels rest with
      | [] => [[c]]
      | l :: ls => (c :: l) :: ls

/-- A pattern level that is neither the `+` nor the `#` wildcard. -/
def wildcardFree (l : List Char) : Prop := '#' ∉ l ∧ '+' ∉ l

/-- Well-formed MQTT filter, level by level: every level is `+`, `#` or
literal, and `#` occurs only as the last level. -/
def wf_levels : List (List Char) → Prop
  | [] => True
  | [l] => l = ['#'] ∨ l = ['+'] ∨ wildcardFree l
  | l :: rest => (l = ['+'] ∨ wildcardFree l) ∧ wf_levels rest

instance (l : List Char) : Decidable (wildcardFree l) := by
  unfold wildcardFree
  infer_instance

/-- Decidability of `wf_levels`, by the same recursion. -/
def wf_levels_dec : (ls : List (List Char)) → Decidable (wf_levels ls)
  | [] => isTrue trivial
  | [l] => by unfold wf_levels; infer_instance
  | l :: l2 :: rest =>
    have i2 : Decidable (wf_levels (l2 :: rest)) := wf_levels_dec (l2 :: rest)
    by unfold wf_levels; infer_instance

instance (ls : List (List Char)) : Decidable (wf_levels ls) := wf_levels_dec ls

/-- Level-by-level matching semantics of the matcher (the reference the
implementation is compared against): a literal level must be equal, `#`
matches the current level and everything after it, `+` matches exactly one
level, where a final `+` requires a non-empty final topic level. -/
def level_matches : List (List Char) → List (List Char) → Bool
  | [], [] => true
  | [], _ :: _ => false
  | _ :: _, [] => false
  | l :: pr, m :: tr =>
    if l = ['#'] then true
    else if l = ['+'] then
      if pr = [] ∧ tr = [] then !m.isEmpty else level_matches pr tr
    else decide (l = m) && level_matches pr tr

/-- Bytewise (memcmp-style) strict comparison of equal-length byte lists,
the order in which the spec compares ids. -/
def lexLtB : List Nat → List Nat → Bool
  | _, [] => false
  | [], _ :: _ => true
  | a :: as, b :: bs => if a < b then true else if b < a then false else lexLtB as bs

/-- Strict bytewise comparison of strings via their character codes. -/
def strLtB (a b : List Char) : Bool := lexLtB (a.map Char.toNat) (b.map Char.toNat)

/-- Big-endian value of a digit list in base B. -/
def foldVal (B : Nat) (l : List Nat) : Nat := l.foldl (fun acc x => acc * B + x) 0

/-- Generator flag `ULID_RELAXED` (1 << 0). -/
def ULID_RELAXED : Nat := 1

/-- Generator flag `ULID_PARANOID` (1 << 1), the flag the plugin passes. -/
def ULID_PARANOID : Nat := 2

/-- `struct ulid_generator`: the 16-byte last id, last-seen millisecond
timestamp, flags, and the RC4 state (permutation `s` plus indices). -/
structure UlidGen where
  last : List Nat
  last_ts : Nat
  flags : Nat
  i : Nat
  j : Nat
  s : List Nat
deriving DecidableEq

/-- One RC4 step of the random-section loop of `ulid_generate`: advance
`i`, advance `j` by `s[i]`, swap, and output `s[(s[i] + s[j]) & 0xff]`. -/
def rc4_next (g : UlidGen) : UlidGen × Nat :=
  let i2 := (g.i + 1) &&& 0xff
  let j2 := (g.j + g.s.getD i2 0) &&& 0xff
  let si := g.s.getD i2 0
  let sj := g.s.getD j2 0
  let s2 := (g.s.set i2 sj).set j2 si
  ({ g with i := i2, j := j2, s := s2 },
   s2.getD ((s2.getD i2 0 + s2.getD j2 0) &&& 0xff) 0)

/-- The `for (k = 0; k < 10; k++)` loop filling `last[6+k]` with RC4 bytes. -/
def ulid_fill (g : UlidGen) : UlidGen :=
  (List.range 10).foldl
    (fun g k =>
      let p := rc4_next g
      { p.1 with last := p.1.last.set (6 + k) p.2 }) g

/-- The increment loop `for (i = 15; i > 5; i--) if (++g->last[i]) break;`:
`++` on an unsigned char wraps modulo 256, and the carry walks toward
byte 6. -/
def inc_from (u : List Nat) (i : Nat) : List Nat :=
  if i ≤ 5 then u
  else
    let b := (u.getD i 0 + 1) % 256
    let u2 := u.set i b
    if b = 0 then inc_from u2 (i - 1) else u2
termination_by i
decreasing_by omega

/-- `ulid_generate` with the wall-clock millisecond read passed in as `ts`
(the source computes it as `platform_utime(1) / 1000` and also returns it;
the returned string is the second component). -/
def ulid_generate (g : UlidGen) (ts : Nat) : UlidGen × List Char :=
  if g.flags &&& ULID_RELAXED = 0 ∧ g.last_ts = ts then
    let g2 := { g with last := inc_from g.last 15 }
    (g2, ulid_encode g2.last)
  else
    let l6 := (((((g.last.set 0 ((ts >>> 40) % 256)).set 1
      ((ts >>> 32) % 256)).set 2 ((ts >>> 24) % 256)).set 3
      ((ts >>> 16) % 256)).set 4 ((ts >>> 8) % 256)).set 5 ((ts >>> 0) % 256)
    let g2 := ulid_fill { g with last_ts := ts, last := l6 }
    let g3 :=
      if g2.flags &&& ULID_PARANOID ≠ 0 then
        { g2 with last := g2.last.set 6 (g2.last.getD 6 0 &&& 0x7f) }
      else g2
    (g3, ulid_encode g3.last)

/-- The six timestamp bytes `ts >> 40 .. ts >> 0` as stored into
`last[0..5]` (unsigned char assignment truncates, hence `% 256`). -/
def tsBytes (ts : Nat) : List Nat :=
  [(ts >>> 40) % 256, (ts >>> 32) % 256, (ts >>> 24) % 256,
   (ts >>> 16) % 256, (ts >>> 8) % 256, (ts >>> 0) % 256]

/-- Well-formed generator state: buffers have their C sizes, bytes fit in
an unsigned char, and `last[0..5]` holds the big-endian `last_ts` (as after
every completed `ulid_generate` call). -/
def GenWF (g : UlidGen) : Prop :=
  g.last.length = 16 ∧ (∀ x ∈ g.last, x < 256) ∧
  g.s.length = 256 ∧ (∀ x ∈ g.s, x < 256) ∧
  g.last_ts < 2 ^ 48 ∧ g.last.take 6 = tsBytes g.last_ts

/-- Invariants the random-section fill loop preserves, relating the state
`r` it produces to the state `g` it started from. -/
def fillInv (g r : UlidGen) : Prop :=
  (∀ x ∈ r.s, x < 256) ∧ r.s.length = g.s.length ∧ r.last.length = g.last.length ∧
  (∀ x ∈ r.last, x < 256) ∧ r.last.take 6 = g.last.take 6 ∧
  r.last_ts = g.last_ts ∧ r.flags = g.flags

/-- The user-property name `ulid`. -/
def ulidKey : List Char := ['u', 'l', 'i', 'd']

/-- `struct mosquitto_evt_message`, restricted to the fields the callback
reads: topic, payload with its length, retain, qos and the user-property
list (name-value pairs, in order). -/
structure MsgEvent where
  topic : List Char
  payload : List Char
  payloadlen : Nat
  retain : Bool
  qos : Nat
  properties : List (List Char × List Char)
deriving DecidableEq

/-- `struct msg_entry` (minus the intrusive `next` pointer: the queue is a
list). -/
structure MsgEntry where
  ulid : List Char
  topic : List Char
  payload : List Char
  timestamp : Nat
  retain : Nat
  qos : Nat
deriving DecidableEq

/-- One row of the `msg` table. -/
structure Row where
  ulid : List Char
  topic : List Char
  payload : List Char
  timestamp : Nat
  retain : Nat
  qos : Nat
deriving DecidableEq

/-- The plugin's mutable globals: the message queue, the sqlite table, the
worker flag and the configured exclusion patterns. -/
structure PluginState where
  queue : List MsgEntry
  store : List Row
  batch_thread_running : Bool
  exclude_patterns : List (List Char)
deriving DecidableEq

/-- `enqueue_message`: build the entry (strndup copies at most
`payloadlen` payload bytes) and append it at the queue tail; on allocation
failure (`allocOk = false`) the function logs and returns with the queue
untouched.  There is no capacity check. -/
def enqueue_message (allocOk : Bool) (q : List MsgEntry) (ulid topic payload : List Char)
    (payloadlen : Nat) (timestamp : Nat) (retain : Nat) (qos : Nat) : List MsgEntry :=
  if allocOk then
    q ++ [{ ulid := ulid, topic := topic, payload := payload.take payloadlen,
            timestamp := timestamp, retain := retain, qos := qos }]
  else q

/-- The property-scanning loop of the delete branch: the first user
property named `ulid`, if any. -/
def findUlidProp : List (List Char × List Char) → Option (List Char)
  | [] => none
  | p :: rest => if p.1 = ulidKey then some p.2 else findUlidProp rest

/-- The fallback query `SELECT ulid FROM msg WHERE topic = ?1 ORDER BY ulid
DESC LIMIT 1`: the largest ulid string (sqlite BINARY order = bytewise) of
the rows with the given topic. -/
def sql_latest_ulid (store : List Row) (topic : List Char) : Option (List Char) :=
  (store.filter (fun r => r.topic == topic)).foldl
    (fun acc r =>
      match acc with
      | none => some r.ulid
      | some m => if strLtB m r.ulid then some r.ulid else some m) none

/-- The prepared statement `DELETE FROM msg WHERE topic = ?1 AND ulid = ?2`. -/
def sql_delete (store : List Row) (topic ulid : List Char) : List Row :=
  store.filter (fun r => !(r.topic == topic && r.ulid == ulid))

/-- The prepared insert statement; `ulid` is the primary key, so inserting
a duplicate id fails and the row is skipped (flush_batch logs and moves
on). -/
def sql_insert (store : List Row) (e : MsgEntry) : List Row :=
  if store.any (fun r => r.ulid == e.ulid) then store
  else
    store ++ [{ ulid := e.ulid, topic := e.topic, payload := e.payload,
                timestamp := e.timestamp, retain := e.retain, qos := e.qos }]

/-- `flush_batch`: take every queued entry out of the queue and step the
insert statement for each in order inside one transaction (the database
and the insert statement are modeled as prepared, the init success path). -/
def flush_batch (st : PluginState) : PluginState :=
  { st with queue := [], store := st.queue.foldl sql_insert st.store }

/-- `on_message_callback`, with the wall clock (`ts`, in ms) and the hot
path allocation outcome (`allocOk`) passed in.  The result is the C return
value, the generator, the plugin state and the outbound event.
`mosquitto_property_add_string_pair` is modeled as appending the pair and
returning MOSQ_ERR_SUCCESS (0). -/
def on_message_callback (g : UlidGen) (ts : Nat) (allocOk : Bool) (ev : MsgEvent)
    (st : PluginState) : Int × UlidGen × PluginState × MsgEvent :=
  let r := ulid_generate g ts
  let ulid := r.2
  let msEpoch := ts / 1000
  if is_topic_excluded st.exclude_patterns ev.topic then
    (0, r.1, st, { ev with properties := ev.properties ++ [(ulidKey, ulid)] })
  else if ev.retain ∧ ev.payloadlen = 0 then
    let target :=
      match findUlidProp ev.properties with
      | some x => some x
      | none => sql_latest_ulid st.store ev.topic
    let st2 :=
      match target with
      | some x => { st with store := sql_delete st.store ev.topic x }
      | none => st
    (0, r.1, st2, { ev with properties := ev.properties ++ [(ulidKey, ulid)] })
  else
    let q2 := enqueue_message allocOk st.queue ulid ev.topic ev.payload ev.payloadlen
      msEpoch (if ev.retain then 1 else 0) ev.qos
    let st2 := if st.batch_thread_running then { st with queue := q2 } else st
    (0, r.1, st2, { ev with properties := ev.properties ++ [(ulidKey, ulid)] })

/-- A concrete generator instance: the state right after seeding with the
identity permutation (entropy mixing is modeled by an arbitrary concrete
permutation), with the `ULID_PARANOID` flag the plugin uses. -/
def gen0 : UlidGen :=
  { last := List.replicate 16 0, last_ts := 0, flags := ULID_PARANOID,
    i := 0, j := 0, s := List.range 256 }

/-- Iterated `enqueue_message` with every allocation succeeding: push the
entries `e 0, e 1, ..., e (n-1)` in order onto the initially empty queue
(`payloadlen` is the full payload length of each entry). -/
def pushSeq (e : Nat → MsgEntry) : Nat → List MsgEntry
  | 0 => []
  | n + 1 =>
    enqueue_message true (pushSeq e n) (e n).ulid (e n).topic (e n).payload
      (e n).payload.length (e n).timestamp (e n).retain (e n).qos

/-- A fixed queue entry for the queue-bound counterexample. -/
def qEntry : MsgEntry :=
  { ulid := ['0'], topic := ['t'], payload := [], timestamp := 0, retain := 0, qos := 0 }

/-- Initial plugin state for the batching trace: empty queue and store,
worker running, no exclusions. -/
def c3_st0 : PluginState :=
  { queue := [], store := [], batch_thread_running := true, exclude_patterns := [] }

/-- First publish of the batching trace: a retained-or-not data message on
topic x with one payload byte. -/
def c3_ev1 : MsgEvent :=
  { topic := ['x'], payload := ['a'], payloadlen := 1, retain := false, qos := 0,
    properties := [] }

/-- The id minted for the first publish of the trace. -/
def c3_id1 : List Char := (ulid_generate gen0 1).2

/-- The plugin state after the first publish (its insert is queued,
not yet flushed). -/
def c3_st1 : PluginState := (on_message_callback gen0 1 true c3_ev1 c3_st0).2.2.1

/-- Second publish of the trace: a delete-intent (retain, empty payload)
targeting the id of the first publish via the ulid user property. -/
def c3_ev2 : MsgEvent :=
  { topic := ['x'], payload := [], payloadlen := 0, retain := true, qos := 0,
    properties := [(ulidKey, c3_id1)] }

/-- Final store: process the delete-intent and then flush the queue. -/
def c3_final : PluginState :=
  flush_batch (on_message_callback (on_message_callback gen0 1 true c3_ev1 c3_st0).2.1
    1 true c3_ev2 c3_st1).2.2.1

/-- Plugin state with two stored rows for the targeted-delete witness. -/
def c4_st : PluginState :=
  { queue := [], store :=
      [{ ulid := ['A'], topic := ['t'], payload := ['p'], timestamp := 3, retain := 1, qos := 1 },
       { ulid := ['B'], topic := ['u'], payload := ['q'], timestamp := 4, retain := 1, qos := 0 }],
    batch_thread_running := true, exclude_patterns := [] }

/-- Delete-intent publish on topic t targeting id A via the ulid property. -/
def c4_ev : MsgEvent :=
  { topic := ['t'], payload := [], payloadlen := 0, retain := true, qos := 1,
    properties := [(ulidKey, ['A'])] }

/-- A 26-character input that is accepted by `ulid_decode` but is not
canonical: it uses the lowercase and confusable characters o, l, i. -/
def nonCanonEx : List Char :=
  ['0','o','l','i','0','0','0','0','0','0','0','0','0',
   '0','0','0','0','0','0','0','0','0','0','0','0','o']

/-- The byte buffer `nonCanonEx` decodes to. -/
def nonCanonBytes : List Nat := [0, 8, 64, 0, 0, 0, 0, 0, 0, 0, 0, 0, 0, 0, 0, 0]

/-- The 26 raw alphabet indices `ulid_encode` feeds to the encode table,
before the table folds them modulo 32: `ulid_encode u = List.map set
(rawDigits u)` definitionally. -/
def rawDigits (u : List Nat) : List Nat :=
  let b := fun i => u.getD i 0
  [b 0 >>> 5,
   b 0 >>> 0,
   b 1 >>> 3,
   (b 1 <<< 2 ||| b 2 >>> 6) &&& 0x1f,
   b 2 >>> 1,
   (b 2 <<< 4 ||| b 3 >>> 4) &&& 0x1f,
   (b 3 <<< 1 ||| b 4 >>> 7) &&& 0x1f,
   b 4 >>> 2,
   (b 4 <<< 3 ||| b 5 >>> 5) &&& 0x1f,
   b 5 >>> 0,
   b 6 >>> 3,
   (b 6 <<< 2 ||| b 7 >>> 6) &&& 0x1f,
   b 7 >>> 1,
   (b 7 <<< 4 ||| b 8 >>> 4) &&& 0x1f,
   (b 8 <<< 1 ||| b 9 >>> 7) &&& 0x1f,
   b 9 >>> 2,
   (b 9 <<< 3 ||| b 10 >>> 5) &&& 0x1f,
   b 10 >>> 0,
   b 11 >>> 3,
   (b 11 <<< 2 ||| b 12 >>> 6) &&& 0x1f,
   b 12 >>> 1,
   (b 12 <<< 4 ||| b 13 >>> 4) &&& 0x1f,
   (b 13 <<< 1 ||| b 14 >>> 7) &&& 0x1f,
   b 14 >>> 2,
   (b 14 <<< 3 ||| b 15 >>> 5) &&& 0x1f,
   b 15 >>> 0]


/- ------------------------------------------------------------------ -/
/- Theorems                                                            -/
/- ------------------------------------------------------------------ -/

theorem decTable_length : decTable.length = 256 := by decide

theorem v_set_table : ∀ i : Fin 256, v (set i.val) = ((i.val % 32 : Nat) : Int) := by decide

theorem set_table_mod : ∀ i : Fin 256, set i.val = set (i.val % 32) := by decide

theorem v_table_bounds : ∀ i : Fin 256, -1 ≤ decTable.getD i.val (-1) ∧ decTable.getD i.val (-1) < 32 := by decide

theorem v_set {i : Nat} (h : i < 256) : v (set i) = ((i % 32 : Nat) : Int) :=
  v_set_table ⟨i, h⟩

theorem set_mod {i : Nat} (h : i < 256) : set i = set (i % 32) :=
  set_table_mod ⟨i, h⟩

theorem v_lt_32 (c : Char) : v c < 32 := by
  by_cases h : c.toNat < 256
  · exact (v_table_bounds ⟨c.toNat, h⟩).2
  · have hlen : decTable.length ≤ c.toNat := by rw [decTable_length]; omega
    unfold v
    rw [List.getD_eq_default _ _ hlen]
    decide

theorem neg_one_le_v (c : Char) : -1 ≤ v c := by
  by_cases h : c.toNat < 256
  · exact (v_table_bounds ⟨c.toNat, h⟩).1
  · have hlen : decTable.length ≤ c.toNat := by rw [decTable_length]; omega
    unfold v
    rw [List.getD_eq_default _ _ hlen]

/-- C10: `ulid_decode` is case-insensitive and folds the Crockford
confusable characters onto digits: every lowercase letter decodes to the
same value as its uppercase form, I, L, i, l decode to 1 and O, o decode
to 0; consequently the non-canonical input `nonCanonEx` decodes
successfully to a buffer whose re-encoding is a different, canonical
uppercase string. -/
theorem ulid_decode_case_insensitive_confusables :
    (∀ k : Fin 26, v (Char.ofNat (97 + k.val)) = v (Char.ofNat (65 + k.val))) ∧
    v 'I' = 1 ∧ v 'L' = 1 ∧ v 'i' = 1 ∧ v 'l' = 1 ∧ v 'O' = 0 ∧ v 'o' = 0 ∧
    ulid_decode nonCanonEx = .ok nonCanonBytes ∧
    ulid_encode nonCanonBytes ≠ nonCanonEx ∧
    (∀ c ∈ ulid_encode nonCanonBytes, canonicalChar c) := by decide

theorem splitLevels_ne_nil (s : List Char) : splitLevels s ≠ [] := by
  induction s with
  | nil => simp [splitLevels]
  | cons c rest ih =>
    simp only [splitLevels]
    by_cases hc : c = '/'
    · simp [hc]
    · simp only [if_neg hc]
      cases h : splitLevels rest with
      | nil => simp
      | cons l ls => simp

theorem splitLevels_slash (rest : List Char) :
    splitLevels ('/' :: rest) = [] :: splitLevels rest := by
  simp [splitLevels]

theorem splitLevels_cons {c : Char} {rest l : List Char} {ls : List (List Char)}
    (hc : c ≠ '/') (h : splitLevels rest = l :: ls) :
    splitLevels (c :: rest) = (c :: l) :: ls := by
  simp only [splitLevels, if_neg hc, h]

theorem splitLevels_of_dropWhile_nil {s : List Char}
    (h : s.dropWhile (fun c => c != '/') = []) : splitLevels s = [s] := by
  induction s with
  | nil => simp [splitLevels]
  | cons c rest ih =>
    rw [List.dropWhile_cons] at h
    by_cases hc : c = '/'
    · simp [hc] at h
    · simp only [bne_iff_ne, ne_eq, hc, not_false_eq_true, if_true] at h
      rw [splitLevels_cons hc (by rw [ih h])]

theorem splitLevels_of_dropWhile_cons {s rest : List Char} {d : Char}
    (h : s.dropWhile (fun c => c != '/') = d :: rest) :
    d = '/' ∧ splitLevels s = s.takeWhile (fun c => c != '/') :: splitLevels rest := by
  induction s with
  | nil => simp at h
  | cons c cs ih =>
    rw [List.dropWhile_cons] at h
    by_cases hc : c = '/'
    · subst hc
      simp only [bne_self_eq_false, if_false] at h
      injection h with h1 h2
      subst h1
      subst h2
      refine ⟨rfl, ?_⟩
      rw [splitLevels_slash]
      simp [List.takeWhile_cons]
    · simp only [bne_iff_ne, ne_eq, hc, not_false_eq_true, if_true] at h
      obtain ⟨hd, hsl⟩ := ih h
      refine ⟨hd, ?_⟩
      rw [List.takeWhile_cons]
      simp only [bne_iff_ne, ne_eq, hc, not_false_eq_true, if_true]
      exact splitLevels_cons hc hsl

theorem splitLevels_exists (s : List Char) : ∃ l ls, splitLevels s = l :: ls := by
  cases h : splitLevels s with
  | nil => exact absurd h (splitLevels_ne_nil s)
  | cons l ls => exact ⟨l, ls, rfl⟩

theorem wf_levels_head {l : List Char} {ls : List (List Char)}
    (h : wf_levels (l :: ls)) : l = ['#'] ∨ l = ['+'] ∨ wildcardFree l := by
  cases ls with
  | nil => exact h
  | cons l2 ls2 =>
    rcases h.1 with h1 | h1
    · exact Or.inr (Or.inl h1)
    · exact Or.inr (Or.inr h1)

theorem wf_levels_tail {l : List Char} {ls : List (List Char)}
    (h : wf_levels (l :: ls)) : wf_levels ls := by
  cases ls with
  | nil => trivial
  | cons l2 ls2 => exact h.2

theorem wf_sharp_level {l : List Char} {ls : List (List Char)}
    (h : wf_levels (('#' :: l) :: ls)) : l = [] ∧ ls = [] := by
  rcases wf_levels_head h with h1 | h1 | h1
  · injection h1 with _ h2
    subst h2
    refine ⟨rfl, ?_⟩
    cases ls with
    | nil => rfl
    | cons l2 ls2 =>
      rcases h.1 with h2 | h2
      · exact absurd h2 (by decide)
      · simp [wildcardFree] at h2
  · simp at h1
  · exact absurd (List.mem_cons_self '#' l) h1.1

theorem wf_plus_level {l : List Char} {ls : List (List Char)}
    (h : wf_levels (('+' :: l) :: ls)) : l = [] := by
  rcases wf_levels_head h with h1 | h1 | h1
  · simp at h1
  · rw [List.cons.injEq] at h1
    exact h1.2
  · exact absurd (List.mem_cons_self '+' l) h1.2

theorem wf_strip {c : Char} {l : List Char} {ls : List (List Char)}
    (h : wf_levels ((c :: l) :: ls)) (h1 : c ≠ '#') (h2 : c ≠ '+') :
    wildcardFree (c :: l) ∧ wf_levels (l :: ls) := by
  have hwf : wildcardFree (c :: l) := by
    rcases wf_levels_head h with h3 | h3 | h3
    · exact absurd h3 (by simp [h1])
    · exact absurd h3 (by simp [h2])
    · exact h3
  refine ⟨hwf, ?_⟩
  have hwl : wildcardFree l :=
    ⟨fun hx => hwf.1 (List.mem_cons_of_mem c hx),
     fun hx => hwf.2 (List.mem_cons_of_mem c hx)⟩
  cases ls with
  | nil => exact Or.inr (Or.inr hwl)
  | cons l2 ls2 => exact ⟨Or.inr hwl, h.2⟩

theorem splitLevels_empty_head {pr : List Char} {ls : List (List Char)}
    (h : splitLevels pr = [] :: ls) :
    (pr = [] ∧ ls = []) ∨ ∃ pr2, pr = '/' :: pr2 ∧ ls = splitLevels pr2 := by
  cases pr with
  | nil =>
    left
    refine ⟨rfl, ?_⟩
    have : ([[]] : List (List Char)) = [] :: ls := h
    injection this with _ h2
    exact h2.symm
  | cons c rest =>
    by_cases hc : c = '/'
    · subst hc
      rw [splitLevels_slash] at h
      injection h with _ h2
      exact Or.inr ⟨rest, rfl, h2.symm⟩
    · obtain ⟨l, ls2, hsl⟩ := splitLevels_exists rest
      rw [splitLevels_cons hc hsl] at h
      injection h with h1 _
      exact absurd h1 (List.cons_ne_nil c l)

theorem tmp_nil_eq (t : List Char) :
    topic_matches_pattern [] t = level_matches [[]] (splitLevels t) := by
  cases t with
  | nil => decide
  | cons tc tr =>
    have hL : topic_matches_pattern [] (tc :: tr) = false := by
      simp [topic_matches_pattern]
    rw [hL]
    rcases hdrop : (tc :: tr).dropWhile (fun c => c != '/') with _ | ⟨d, rest⟩
    · rw [splitLevels_of_dropWhile_nil hdrop]
      simp [level_matches]
    · obtain ⟨hd, hsl⟩ := splitLevels_of_dropWhile_cons hdrop
      rw [hsl]
      obtain ⟨m2, ms2, hslr⟩ := splitLevels_exists rest
      rw [hslr]
      simp [level_matches]

theorem tmp_eq_level_matches :
    ∀ (n : Nat) (p t : List Char), p.length ≤ n → wf_levels (splitLevels p) →
      topic_matches_pattern p t = level_matches (splitLevels p) (splitLevels t) := by
  intro n
  induction n with
  | zero =>
    intro p t hlen _
    have hp : p = [] := by
      cases p with
      | nil => rfl
      | cons a b => simp at hlen
    subst hp
    exact tmp_nil_eq t
  | succ n ih =>
    intro p t hlen hw
    cases p with
    | nil => exact tmp_nil_eq t
    | cons pc pr =>
      by_cases hsharp : pc = '#'
      · subst hsharp
        obtain ⟨l, ls, hsl⟩ := splitLevels_exists pr
        have hP : splitLevels ('#' :: pr) = ('#' :: l) :: ls :=
          splitLevels_cons (by decide) hsl
        rw [hP] at hw ⊢
        obtain ⟨hl, hls⟩ := wf_sharp_level hw
        subst hl
        subst hls
        obtain ⟨m, ms, hT⟩ := splitLevels_exists t
        rw [hT]
        have hR : level_matches [['#']] (m :: ms) = true := by
          simp [level_matches]
        rw [hR]
        cases t with
        | nil => simp [topic_matches_pattern]
        | cons tc tr => simp [topic_matches_pattern]
      · by_cases hplus : pc = '+'
        · subst hplus
          obtain ⟨l, ls, hsl⟩ := splitLevels_exists pr
          have hP : splitLevels ('+' :: pr) = ('+' :: l) :: ls :=
            splitLevels_cons (by decide) hsl
          rw [hP] at hw ⊢
          have hl : l = [] := wf_plus_level hw
          subst hl
          rcases splitLevels_empty_head hsl with ⟨hpr, hls⟩ | ⟨pr2, hpr, hls⟩
          · subst hpr
            subst hls
            cases t with
            | nil => decide
            | cons tc tr =>
              rcases hdrop : (tc :: tr).dropWhile (fun c => c != '/') with _ | ⟨d, rest⟩
              · rw [splitLevels_of_dropWhile_nil hdrop]
                have hL : topic_matches_pattern ['+'] (tc :: tr) = true := by
                  simp only [topic_matches_pattern, hdrop]
                  simp [topic_matches_pattern]
                rw [hL]
                simp [level_matches]
              · obtain ⟨hd, hsl2⟩ := splitLevels_of_dropWhile_cons hdrop
                rw [hsl2]
                obtain ⟨m2, ms2, hslr⟩ := splitLevels_exists rest
                rw [hslr]
                have hL : topic_matches_pattern ['+'] (tc :: tr) = false := by
                  simp only [topic_matches_pattern, hdrop]
                  simp [topic_matches_pattern]
                rw [hL]
                simp [level_matches]
          · subst hpr
            subst hls
            obtain ⟨l2, ls2, hsl2⟩ := splitLevels_exists pr2
            have hwtail : wf_levels (splitLevels pr2) := by
              have := wf_levels_tail hw
              exact this
            cases t with
            | nil =>
              have hL : topic_matches_pattern ('+' :: '/' :: pr2) [] = false := by
                simp [topic_matches_pattern]
              rw [hL]
              rw [hsl2]
              simp [level_matches, splitLevels]
            | cons tc tr =>
              rcases hdrop : (tc :: tr).dropWhile (fun c => c != '/') with _ | ⟨d, rest⟩
              · have hL : topic_matches_pattern ('+' :: '/' :: pr2) (tc :: tr) = false := by
                  simp only [topic_matches_pattern, hdrop]
                  simp [topic_matches_pattern]
                rw [hL]
                rw [splitLevels_of_dropWhile_nil hdrop]
                rw [hsl2]
                simp [level_matches]
              · obtain ⟨hd, hsl3⟩ := splitLevels_of_dropWhile_cons hdrop
                subst hd
                have hL : topic_matches_pattern ('+' :: '/' :: pr2) (tc :: tr) =
                    topic_matches_pattern pr2 rest := by
                  simp only [topic_matches_pattern, hdrop]
                  simp [topic_matches_pattern]
                rw [hL, hsl3]
                obtain ⟨m2, ms2, hslr⟩ := splitLevels_exists rest
                rw [hsl2, hslr]
                have hR : level_matches (['+'] :: l2 :: ls2)
                    (((tc :: tr).takeWhile (fun c => c != '/')) :: m2 :: ms2) =
                    level_matches (l2 :: ls2) (m2 :: ms2) := by
                  simp [level_matches]
                rw [hR, ← hsl2, ← hslr]
                exact ih pr2 rest (by simp at hlen; omega) hwtail
        · cases t with
          | nil =>
            have hL : topic_matches_pattern (pc :: pr) [] = false := by
              simp [topic_matches_pattern, hsharp]
            rw [hL]
            by_cases hslash : pc = '/'
            · subst hslash
              rw [splitLevels_slash]
              obtain ⟨l2, ls2, hsl2⟩ := splitLevels_exists pr
              rw [hsl2]
              simp [level_matches, splitLevels]
            · obtain ⟨l, ls, hsl⟩ := splitLevels_exists pr
              rw [splitLevels_cons hslash hsl]
              simp [level_matches, splitLevels, List.cons.injEq, hsharp, hplus]
          | cons tc tr =>
            by_cases heq : pc = tc
            · subst heq
              by_cases hslash : pc = '/'
              · subst hslash
                have hL : topic_matches_pattern ('/' :: pr) ('/' :: tr) =
                    topic_matches_pattern pr tr := by
                  simp [topic_matches_pattern]
                rw [hL, splitLevels_slash, splitLevels_slash]
                obtain ⟨l, ls, hsl⟩ := splitLevels_exists pr
                obtain ⟨m, ms, hsl2⟩ := splitLevels_exists tr
                rw [hsl, hsl2]
                have hR : level_matches ([] :: l :: ls) ([] :: m :: ms) =
                    level_matches (l :: ls) (m :: ms) := by
                  simp [level_matches]
                rw [hR, ← hsl, ← hsl2]
                refine ih pr tr (by simp at hlen; omega) ?_
                rw [splitLevels_slash] at hw
                exact wf_levels_tail hw
              · obtain ⟨l, ls, hsl⟩ := splitLevels_exists pr
                obtain ⟨m, ms, hsl2⟩ := splitLevels_exists tr
                have hP := splitLevels_cons hslash hsl
                have hT := splitLevels_cons hslash hsl2
                rw [hP] at hw ⊢
                rw [hT]
                obtain ⟨hwf, hwl⟩ := wf_strip hw hsharp hplus
                have hlnot1 : l ≠ ['#'] := by
                  intro hx
                  exact hwf.1 (by rw [hx]; simp)
                have hlnot2 : l ≠ ['+'] := by
                  intro hx
                  exact hwf.2 (by rw [hx]; simp)
                have hL : topic_matches_pattern (pc :: pr) (pc :: tr) =
                    topic_matches_pattern pr tr := by
                  simp [topic_matches_pattern, hsharp, hplus]
                have hR : level_matches ((pc :: l) :: ls) ((pc :: m) :: ms) =
                    (decide (l = m) && level_matches ls ms) := by
                  simp [level_matches, List.cons.injEq, hsharp, hplus]
                rw [hL, hR]
                have hIH := ih pr tr (by simp at hlen; omega) (by rw [hsl]; exact hwl)
                rw [hsl, hsl2] at hIH
                rw [hIH]
                simp [level_matches, hlnot1, hlnot2]
            · have hL : topic_matches_pattern (pc :: pr) (tc :: tr) = false := by
                simp [topic_matches_pattern, hsharp, hplus, heq]
              rw [hL]
              by_cases hps : pc = '/'
              · subst hps
                have htc : tc ≠ '/' := fun h => heq h.symm
                obtain ⟨m, ms, hsl2⟩ := splitLevels_exists tr
                rw [splitLevels_slash, splitLevels_cons htc hsl2]
                obtain ⟨l2, ls2, hslp⟩ := splitLevels_exists pr
                rw [hslp]
                simp [level_matches]
              · by_cases hts : tc = '/'
                · subst hts
                  obtain ⟨l, ls, hsl⟩ := splitLevels_exists pr
                  rw [splitLevels_cons hps hsl, splitLevels_slash]
                  obtain ⟨m2, ms2, hslt⟩ := splitLevels_exists tr
                  rw [hslt]
                  simp [level_matches, List.cons.injEq, hsharp, hplus]
                · obtain ⟨l, ls, hsl⟩ := splitLevels_exists pr
                  obtain ⟨m, ms, hsl2⟩ := splitLevels_exists tr
                  rw [splitLevels_cons hps hsl, splitLevels_cons hts hsl2]
                  simp [level_matches, List.cons.injEq, hsharp, hplus, heq]

/-- C5 counterexample: against the claim (MQTT filter semantics), the
pattern a/# does NOT match the topic a in this implementation, and a
trailing + does not match an empty final level (a/+ does not match a/). -/
theorem topic_matches_pattern_mqtt_counterexample :
    topic_matches_pattern ['a', '/', '#'] ['a'] = false ∧
    topic_matches_pattern ['a', '/', '+'] ['a', '/'] = false := by decide

/-- C5 (amended): for every well-formed pattern (each level is +, # or
literal, with # only as the last level) and every topic,
`topic_matches_pattern` decides the level semantics `level_matches`:
literal levels compare equal level by level; `+` matches exactly one
level, which may be empty only when another pattern level follows (a
trailing `+` requires a non-empty final level); `#` matches the current
and all remaining topic levels, so `a/#` matches `a/b` and `a/` but not
the bare topic `a` (while the bare pattern `#` matches every topic). -/
theorem topic_matches_pattern_decides_level_semantics (p t : List Char)
    (hw : wf_levels (splitLevels p)) :
    topic_matches_pattern p t = level_matches (splitLevels p) (splitLevels t) :=
  tmp_eq_level_matches p.length p t le_rfl hw

theorem topic_matches_pattern_decides_level_semantics_witness :
    wf_levels (splitLevels ['c', 'm', 'd', '/', '#']) ∧
    topic_matches_pattern ['c', 'm', 'd', '/', '#'] ['c', 'm', 'd', '/', 'r'] =
      level_matches (splitLevels ['c', 'm', 'd', '/', '#'])
        (splitLevels ['c', 'm', 'd', '/', 'r']) :=
  ⟨by decide, topic_matches_pattern_decides_level_semantics _ _ (by decide)⟩

theorem entry_take_eta (e : MsgEntry) :
    ({ ulid := e.ulid, topic := e.topic, payload := e.payload.take e.payload.length,
       timestamp := e.timestamp, retain := e.retain, qos := e.qos } : MsgEntry) = e := by
  cases e
  simp

theorem pushSeq_spec (e : Nat → MsgEntry) : ∀ n, pushSeq e n = (List.range n).map e := by
  intro n
  induction n with
  | zero => rfl
  | succ n ih =>
    show enqueue_message true (pushSeq e n) (e n).ulid (e n).topic (e n).payload
      (e n).payload.length (e n).timestamp (e n).retain (e n).qos = _
    rw [List.range_succ, List.map_append, ← ih]
    simp [enqueue_message, entry_take_eta]

/-- C2 counterexample: after 15,001 successful pushes the queue holds
15,001 entries, exceeding the claimed hard cap of 15,000 — no push dropped
an entry or blocked. -/
theorem queue_hard_cap_counterexample :
    15000 < (pushSeq (fun _ => qEntry) 15001).length := by
  rw [pushSeq_spec, List.length_map, List.length_range]
  omega

/-- C2 (amended): the write queue has no capacity bound at all:
`enqueue_message` never drops an entry and never blocks, so after n
successful pushes the queue holds exactly the n pushed entries in FIFO
order (in particular it can exceed 15,000; the `MAX_QUEUE_SIZE` constant
of the source is 10,000 and is only used to validate the `batch_size`
option).  The queue state stays consistent: its content is exactly the
pushed sequence. -/
theorem enqueue_message_unbounded (e : Nat → MsgEntry) (n : Nat) :
    pushSeq e n = (List.range n).map e ∧ (pushSeq e n).length = n := by
  refine ⟨pushSeq_spec e n, ?_⟩
  rw [pushSeq_spec, List.length_map, List.length_range]

/-- C9: for every message event and every persistence outcome (excluded
topic, delete-intent with or without a target, enqueue with allocation
success or failure, worker running or not), the message callback returns
success (0) to the broker. -/
theorem on_message_callback_returns_success (g : UlidGen) (ts : Nat) (allocOk : Bool)
    (ev : MsgEvent) (st : PluginState) :
    (on_message_callback g ts allocOk ev st).1 = 0 := by
  unfold on_message_callback
  by_cases h1 : is_topic_excluded st.exclude_patterns ev.topic
  · simp [h1]
  · by_cases h2 : ev.retain ∧ ev.payloadlen = 0
    · simp [h1, h2]
    · simp [h1, h2]

theorem ulid_generate_length (g : UlidGen) (ts : Nat) :
    (ulid_generate g ts).2.length = 26 := by
  unfold ulid_generate
  by_cases h : g.flags &&& ULID_RELAXED = 0 ∧ g.last_ts = ts
  · simp only [h, if_pos]
    rfl
  · simp only [h, if_neg, if_false]
    rfl

/-- C7: on every path of the message callback (persisted, excluded or
delete-intent) the outbound property list is the incoming list with
exactly one additional user property (ulid, id) appended, where id is the
26-character ULID minted by this invocation; all existing properties are
preserved. -/
theorem on_message_callback_appends_ulid_property (g : UlidGen) (ts : Nat)
    (allocOk : Bool) (ev : MsgEvent) (st : PluginState) :
    (on_message_callback g ts allocOk ev st).2.2.2.properties =
      ev.properties ++ [(ulidKey, (ulid_generate g ts).2)] ∧
    (ulid_generate g ts).2.length = 26 := by
  refine ⟨?_, ulid_generate_length g ts⟩
  unfold on_message_callback
  by_cases h1 : is_topic_excluded st.exclude_patterns ev.topic
  · simp [h1]
  · by_cases h2 : ev.retain ∧ ev.payloadlen = 0
    · simp [h1, h2]
    · simp [h1, h2]

/-- C8: a delete-intent publish (retain and empty payload) never enqueues
an insert entry and never adds a row to the store: the queue is unchanged
and the resulting store is a sublist of the previous one. -/
theorem delete_intent_never_inserts (g : UlidGen) (ts : Nat) (allocOk : Bool)
    (ev : MsgEvent) (st : PluginState)
    (hret : ev.retain = true) (hlen : ev.payloadlen = 0) :
    (on_message_callback g ts allocOk ev st).2.2.1.queue = st.queue ∧
    (on_message_callback g ts allocOk ev st).2.2.1.store.Sublist st.store := by
  unfold on_message_callback
  by_cases h1 : is_topic_excluded st.exclude_patterns ev.topic
  · simp [h1]
  · have h2 : ev.retain ∧ ev.payloadlen = 0 := ⟨hret, hlen⟩
    simp only [h1, Bool.false_eq_true, if_false, h2, and_self, if_true]
    cases htarget : (match findUlidProp ev.properties with
      | some x => some x
      | none => sql_latest_ulid st.store ev.topic) with
    | none => simp [htarget]
    | some x =>
      simp only [htarget]
      exact ⟨by trivial, List.filter_sublist _⟩

theorem delete_intent_never_inserts_witness :
    c3_ev2.retain = true ∧ c3_ev2.payloadlen = 0 ∧
    ((on_message_callback gen0 1 true c3_ev2 c3_st0).2.2.1.queue = c3_st0.queue ∧
     (on_message_callback gen0 1 true c3_ev2 c3_st0).2.2.1.store.Sublist c3_st0.store) :=
  ⟨rfl, rfl, delete_intent_never_inserts gen0 1 true c3_ev2 c3_st0 rfl rfl⟩

theorem on_message_callback_store_delete (g : UlidGen) (ts : Nat) (allocOk : Bool)
    (ev : MsgEvent) (st : PluginState) (X : List Char)
    (hexcl : is_topic_excluded st.exclude_patterns ev.topic = false)
    (hret : ev.retain = true) (hlen : ev.payloadlen = 0)
    (hprop : findUlidProp ev.properties = some X) :
    (on_message_callback g ts allocOk ev st).2.2.1.store = sql_delete st.store ev.topic X ∧
    (on_message_callback g ts allocOk ev st).2.2.1.queue = st.queue := by
  unfold on_message_callback
  have h2 : ev.retain ∧ ev.payloadlen = 0 := ⟨hret, hlen⟩
  simp only [hexcl, Bool.false_eq_true, if_false, h2, and_self, if_true, hprop]

theorem sql_delete_not_mem (rows : List Row) (topic ulid : List Char) :
    ∀ r ∈ sql_delete rows topic ulid, ¬(r.topic = topic ∧ r.ulid = ulid) := by
  intro r hr hcontra
  have hp := (List.mem_filter.mp hr).2
  simp [hcontra.1, hcontra.2] at hp

theorem sql_delete_mem_of_ne (rows : List Row) (topic ulid : List Char) :
    ∀ r ∈ rows, ¬(r.topic = topic ∧ r.ulid = ulid) → r ∈ sql_delete rows topic ulid := by
  intro r hr hne
  refine List.mem_filter.mpr ⟨hr, ?_⟩
  simp only [Bool.not_eq_eq_eq_not, Bool.not_true, Bool.and_eq_false_imp, beq_iff_eq]
  intro ht
  by_contra hu
  simp only [Bool.not_eq_false, beq_iff_eq] at hu
  exact hne ⟨ht, hu⟩

theorem sql_delete_eq_self (rows : List Row) (topic ulid : List Char)
    (h : ∀ r ∈ rows, r.ulid = ulid → r.topic ≠ topic) :
    sql_delete rows topic ulid = rows := by
  apply List.filter_eq_self.mpr
  intro r hr
  simp only [Bool.not_eq_eq_eq_not, Bool.not_true, Bool.and_eq_false_imp, beq_iff_eq]
  intro ht
  by_contra hu
  simp only [Bool.not_eq_false, beq_iff_eq] at hu
  exact h r hr hu ht

/-- C4: a delete-intent publish (retain, empty payload) carrying the user
property ulid=X on a non-excluded topic T removes every stored row with
(topic=T, id=X), keeps every other row, adds nothing, and when X exists
only under a different topic it deletes no rows at all. -/
theorem delete_targets_topic_and_id (g : UlidGen) (ts : Nat) (allocOk : Bool)
    (ev : MsgEvent) (st : PluginState) (X : List Char)
    (hexcl : is_topic_excluded st.exclude_patterns ev.topic = false)
    (hret : ev.retain = true) (hlen : ev.payloadlen = 0)
    (hprop : findUlidProp ev.properties = some X) :
    (∀ r ∈ (on_message_callback g ts allocOk ev st).2.2.1.store,
        ¬(r.topic = ev.topic ∧ r.ulid = X)) ∧
    (∀ r ∈ st.store, ¬(r.topic = ev.topic ∧ r.ulid = X) →
        r ∈ (on_message_callback g ts allocOk ev st).2.2.1.store) ∧
    (on_message_callback g ts allocOk ev st).2.2.1.store.Sublist st.store ∧
    ((∀ r ∈ st.store, r.ulid = X → r.topic ≠ ev.topic) →
        (on_message_callback g ts allocOk ev st).2.2.1.store = st.store) := by
  obtain ⟨hstore, _⟩ :=
    on_message_callback_store_delete g ts allocOk ev st X hexcl hret hlen hprop
  rw [hstore]
  exact ⟨sql_delete_not_mem st.store ev.topic X,
         sql_delete_mem_of_ne st.store ev.topic X,
         List.filter_sublist _,
         sql_delete_eq_self st.store ev.topic X⟩

theorem delete_targets_topic_and_id_witness :
    is_topic_excluded c4_st.exclude_patterns c4_ev.topic = false ∧
    c4_ev.retain = true ∧ c4_ev.payloadlen = 0 ∧
    findUlidProp c4_ev.properties = some ['A'] ∧
    ((∀ r ∈ (on_message_callback gen0 7 true c4_ev c4_st).2.2.1.store,
        ¬(r.topic = c4_ev.topic ∧ r.ulid = ['A'])) ∧
     (∀ r ∈ c4_st.store, ¬(r.topic = c4_ev.topic ∧ r.ulid = ['A']) →
        r ∈ (on_message_callback gen0 7 true c4_ev c4_st).2.2.1.store) ∧
     (on_message_callback gen0 7 true c4_ev c4_st).2.2.1.store.Sublist c4_st.store ∧
     ((∀ r ∈ c4_st.store, r.ulid = ['A'] → r.topic ≠ c4_ev.topic) →
        (on_message_callback gen0 7 true c4_ev c4_st).2.2.1.store = c4_st.store)) :=
  ⟨by decide, rfl, rfl, by decide,
   delete_targets_topic_and_id gen0 7 true c4_ev c4_st ['A'] (by decide) rfl rfl (by decide)⟩

theorem sql_insert_mem {r : Row} {rows : List Row} (e : MsgEntry) (h : r ∈ rows) :
    r ∈ sql_insert rows e := by
  unfold sql_insert
  by_cases hany : rows.any (fun r2 => r2.ulid == e.ulid)
  · simpa [hany]
  · simp only [hany, Bool.false_eq_true, if_false]
    exact List.mem_append_left _ h

theorem mem_ulid_foldl_insert (X : List Char) :
    ∀ (q : List MsgEntry) (rows : List Row),
      ((∃ r ∈ rows, r.ulid = X) ∨ (∃ e ∈ q, e.ulid = X)) →
      ∃ r ∈ q.foldl sql_insert rows, r.ulid = X := by
  intro q
  induction q with
  | nil =>
    intro rows h
    rcases h with h | h
    · exact h
    · obtain ⟨e, he, _⟩ := h
      simp at he
  | cons e0 q2 ih =>
    intro rows h
    rw [List.foldl_cons]
    apply ih
    rcases h with ⟨r, hr, hx⟩ | ⟨e, he, hx⟩
    · exact Or.inl ⟨r, sql_insert_mem e0 hr, hx⟩
    · rcases List.mem_cons.mp he with rfl | he2
      · left
        unfold sql_insert
        by_cases hany : rows.any (fun r2 => r2.ulid == e.ulid)
        · obtain ⟨r, hr, hbeq⟩ := List.any_eq_true.mp hany
          exact ⟨r, by simpa [hany], by rw [beq_iff_eq] at hbeq; rw [hbeq, hx]⟩
        · refine ⟨{ ulid := e.ulid, topic := e.topic, payload := e.payload,
                    timestamp := e.timestamp, retain := e.retain, qos := e.qos }, ?_, hx⟩
          simp only [hany, Bool.false_eq_true, if_false]
          exact List.mem_append_right _ (List.mem_singleton.mpr rfl)
      · exact Or.inr ⟨e, he2, hx⟩

/-- C3 counterexample: in the trace insert(x, id I) then delete-intent
(ulid=I) then flush, the final store still contains a row with id I — the
delete ran against the database before the batched insert was flushed. -/
theorem delete_in_same_batch_counterexample :
    c3_final.store.any (fun r => r.ulid == c3_id1) = true := by decide

/-- C3 (amended): deletes are NOT batched with inserts.  A delete-intent
executes immediately against the store inside the callback (the resulting
store has no (topic, X) row and the queue is untouched), while inserts
wait in the queue; hence when the insert of id X is still queued, the
store obtained by flushing after the delete-intent again CONTAINS a row
with id X. -/
theorem delete_intent_executes_immediately (g : UlidGen) (ts : Nat) (allocOk : Bool)
    (ev : MsgEvent) (st : PluginState) (X : List Char)
    (hexcl : is_topic_excluded st.exclude_patterns ev.topic = false)
    (hret : ev.retain = true) (hlen : ev.payloadlen = 0)
    (hprop : findUlidProp ev.properties = some X)
    (hq : ∃ e ∈ st.queue, e.ulid = X) :
    (∀ r ∈ (on_message_callback g ts allocOk ev st).2.2.1.store,
        ¬(r.topic = ev.topic ∧ r.ulid = X)) ∧
    (on_message_callback g ts allocOk ev st).2.2.1.queue = st.queue ∧
    ∃ r ∈ (flush_batch (on_message_callback g ts allocOk ev st).2.2.1).store,
      r.ulid = X := by
  obtain ⟨hstore, hqueue⟩ :=
    on_message_callback_store_delete g ts allocOk ev st X hexcl hret hlen hprop
  refine ⟨by rw [hstore]; exact sql_delete_not_mem st.store ev.topic X, hqueue, ?_⟩
  unfold flush_batch
  apply mem_ulid_foldl_insert
  rw [hqueue]
  exact Or.inr hq

theorem delete_intent_executes_immediately_witness :
    is_topic_excluded c3_st1.exclude_patterns c3_ev2.topic = false ∧
    c3_ev2.retain = true ∧ c3_ev2.payloadlen = 0 ∧
    findUlidProp c3_ev2.properties = some c3_id1 ∧
    (∃ e ∈ c3_st1.queue, e.ulid = c3_id1) ∧
    ((∀ r ∈ (on_message_callback (on_message_callback gen0 1 true c3_ev1 c3_st0).2.1
        1 true c3_ev2 c3_st1).2.2.1.store,
        ¬(r.topic = c3_ev2.topic ∧ r.ulid = c3_id1)) ∧
     (on_message_callback (on_message_callback gen0 1 true c3_ev1 c3_st0).2.1
        1 true c3_ev2 c3_st1).2.2.1.queue = c3_st1.queue ∧
     ∃ r ∈ (flush_batch (on_message_callback
        (on_message_callback gen0 1 true c3_ev1 c3_st0).2.1
        1 true c3_ev2 c3_st1).2.2.1).store, r.ulid = c3_id1) :=
  ⟨by decide, rfl, rfl, by decide, by decide,
   delete_intent_executes_immediately (on_message_callback gen0 1 true c3_ev1 c3_st0).2.1
     1 true c3_ev2 c3_st1 c3_id1 (by decide) rfl rfl (by decide) (by decide)⟩

theorem or_eq_add_of_dvd {n : Nat} (a b : Nat) (ha : 2 ^ n ∣ a) (hb : b < 2 ^ n) :
    a ||| b = a + b := by
  obtain ⟨q, rfl⟩ := ha
  exact (Nat.mul_add_lt_is_or hb q).symm

theorem shiftLeft_or_eq_add {n : Nat} (a b : Nat) (hb : b < 2 ^ n) :
    a <<< n ||| b = a <<< n + b := by
  rw [Nat.shiftLeft_eq]
  rw [Nat.mul_comm]
  exact (Nat.mul_add_lt_is_or hb a).symm

theorem and_31 (x : Nat) : x &&& 31 = x % 32 := by
  have h := Nat.and_pow_two_sub_one_eq_mod x 5
  norm_num at h
  exact h

theorem and_255 (x : Nat) : x &&& 255 = x % 256 := by
  have h := Nat.and_pow_two_sub_one_eq_mod x 8
  norm_num at h
  exact h

theorem and_127 (x : Nat) : x &&& 127 = x % 128 := by
  have h := Nat.and_pow_two_sub_one_eq_mod x 7
  norm_num at h
  exact h

theorem w_set {i : Nat} (h : i < 256) : (v (set i)).toNat = i % 32 := by
  rw [v_set h]
  exact Int.toNat_natCast _

theorem v_set_ne2 (i : Nat) (h : i < 256) : (v (set i) == -1) = false := by
  rw [v_set h]
  rw [beq_eq_false_iff_ne]
  omega

theorem w_lt (c : Char) : (v c).toNat < 32 := by
  have h := v_lt_32 c
  omega

/-- Evaluation of `ulid_decode` when every character decodes: both guard
branches are skipped and the 16 bytes are assembled. -/
theorem ulid_decode_ok (s : List Char)
    (h0 : ¬(v (s.getD 0 nulChar) > 7))
    (hv : ∀ i, i < 26 → (v (s.getD i nulChar) == -1) = false) :
    ulid_decode s =
      .ok [((v (s.getD 0 nulChar)).toNat <<< 5 ||| (v (s.getD 1 nulChar)).toNat >>> 0) % 256,
           ((v (s.getD 2 nulChar)).toNat <<< 3 ||| (v (s.getD 3 nulChar)).toNat >>> 2) % 256,
           ((v (s.getD 3 nulChar)).toNat <<< 6 ||| (v (s.getD 4 nulChar)).toNat <<< 1 |||
             (v (s.getD 5 nulChar)).toNat >>> 4) % 256,
           ((v (s.getD 5 nulChar)).toNat <<< 4 ||| (v (s.getD 6 nulChar)).toNat >>> 1) % 256,
           ((v (s.getD 6 nulChar)).toNat <<< 7 ||| (v (s.getD 7 nulChar)).toNat <<< 2 |||
             (v (s.getD 8 nulChar)).toNat >>> 3) % 256,
           ((v (s.getD 8 nulChar)).toNat <<< 5 ||| (v (s.getD 9 nulChar)).toNat >>> 0) % 256,
           ((v (s.getD 10 nulChar)).toNat <<< 3 ||| (v (s.getD 11 nulChar)).toNat >>> 2) % 256,
           ((v (s.getD 11 nulChar)).toNat <<< 6 ||| (v (s.getD 12 nulChar)).toNat <<< 1 |||
             (v (s.getD 13 nulChar)).toNat >>> 4) % 256,
           ((v (s.getD 13 nulChar)).toNat <<< 4 ||| (v (s.getD 14 nulChar)).toNat >>> 1) % 256,
           ((v (s.getD 14 nulChar)).toNat <<< 7 ||| (v (s.getD 15 nulChar)).toNat <<< 2 |||
             (v (s.getD 16 nulChar)).toNat >>> 3) % 256,
           ((v (s.getD 16 nulChar)).toNat <<< 5 ||| (v (s.getD 17 nulChar)).toNat >>> 0) % 256,
           ((v (s.getD 18 nulChar)).toNat <<< 3 ||| (v (s.getD 19 nulChar)).toNat >>> 2) % 256,
           ((v (s.getD 19 nulChar)).toNat <<< 6 ||| (v (s.getD 20 nulChar)).toNat <<< 1 |||
             (v (s.getD 21 nulChar)).toNat >>> 4) % 256,
           ((v (s.getD 21 nulChar)).toNat <<< 4 ||| (v (s.getD 22 nulChar)).toNat >>> 1) % 256,
           ((v (s.getD 22 nulChar)).toNat <<< 7 ||| (v (s.getD 23 nulChar)).toNat <<< 2 |||
             (v (s.getD 24 nulChar)).toNat >>> 3) % 256,
           ((v (s.getD 24 nulChar)).toNat <<< 5 ||| (v (s.getD 25 nulChar)).toNat >>> 0) % 256] := by
  unfold ulid_decode
  rw [if_neg h0]
  have hany : ((List.range 26).any (fun i => v (s.getD i nulChar) == -1)) = false := by
    rw [List.any_eq_false]
    intro i hi
    rw [hv i (List.mem_range.mp hi)]
    simp
  rw [hany]
  simp

theorem v_set_ne_all (i : Nat) : (v (set i) == -1) = false := by
  by_cases h : i < 256
  · exact v_set_ne2 i h
  · have hs : set i = '0' := by
      show encTable.getD i '0' = '0'
      rw [List.getD_eq_default]
      have hlen : encTable.length = 256 := by decide
      omega
    rw [hs]
    decide

theorem getD_mem {α : Type} (l : List α) (d : α) {i : Nat} (h : i < l.length) :
    l.getD i d ∈ l := by
  rw [List.getD_eq_getElem?_getD, List.getElem?_eq_getElem h]
  exact List.getElem_mem h

/-- Wrapper of `ulid_decode_ok` whose validity hypothesis ranges over the
characters instead of the indices. -/
theorem ulid_decode_ok_mem (s : List Char) (hlen : s.length = 26)
    (h0 : ¬(v (s.getD 0 nulChar) > 7))
    (hv : ∀ c ∈ s, (v c == -1) = false) :
    ulid_decode s =
      .ok [((v (s.getD 0 nulChar)).toNat <<< 5 ||| (v (s.getD 1 nulChar)).toNat >>> 0) % 256,
           ((v (s.getD 2 nulChar)).toNat <<< 3 ||| (v (s.getD 3 nulChar)).toNat >>> 2) % 256,
           ((v (s.getD 3 nulChar)).toNat <<< 6 ||| (v (s.getD 4 nulChar)).toNat <<< 1 |||
             (v (s.getD 5 nulChar)).toNat >>> 4) % 256,
           ((v (s.getD 5 nulChar)).toNat <<< 4 ||| (v (s.getD 6 nulChar)).toNat >>> 1) % 256,
           ((v (s.getD 6 nulChar)).toNat <<< 7 ||| (v (s.getD 7 nulChar)).toNat <<< 2 |||
             (v (s.getD 8 nulChar)).toNat >>> 3) % 256,
           ((v (s.getD 8 nulChar)).toNat <<< 5 ||| (v (s.getD 9 nulChar)).toNat >>> 0) % 256,
           ((v (s.getD 10 nulChar)).toNat <<< 3 ||| (v (s.getD 11 nulChar)).toNat >>> 2) % 256,
           ((v (s.getD 11 nulChar)).toNat <<< 6 ||| (v (s.getD 12 nulChar)).toNat <<< 1 |||
             (v (s.getD 13 nulChar)).toNat >>> 4) % 256,
           ((v (s.getD 13 nulChar)).toNat <<< 4 ||| (v (s.getD 14 nulChar)).toNat >>> 1) % 256,
           ((v (s.getD 14 nulChar)).toNat <<< 7 ||| (v (s.getD 15 nulChar)).toNat <<< 2 |||
             (v (s.getD 16 nulChar)).toNat >>> 3) % 256,
           ((v (s.getD 16 nulChar)).toNat <<< 5 ||| (v (s.getD 17 nulChar)).toNat >>> 0) % 256,
           ((v (s.getD 18 nulChar)).toNat <<< 3 ||| (v (s.getD 19 nulChar)).toNat >>> 2) % 256,
           ((v (s.getD 19 nulChar)).toNat <<< 6 ||| (v (s.getD 20 nulChar)).toNat <<< 1 |||
             (v (s.getD 21 nulChar)).toNat >>> 4) % 256,
           ((v (s.getD 21 nulChar)).toNat <<< 4 ||| (v (s.getD 22 nulChar)).toNat >>> 1) % 256,
           ((v (s.getD 22 nulChar)).toNat <<< 7 ||| (v (s.getD 23 nulChar)).toNat <<< 2 |||
             (v (s.getD 24 nulChar)).toNat >>> 3) % 256,
           ((v (s.getD 24 nulChar)).toNat <<< 5 ||| (v (s.getD 25 nulChar)).toNat >>> 0) % 256] :=
  ulid_decode_ok s h0 (fun i hi => hv _ (getD_mem s nulChar (by omega)))

theorem add_or_41 (x c : Nat) (hx : 2 ∣ x) (hc : c < 32) :
    x ||| c >>> 4 = x + c >>> 4 :=
  or_eq_add_of_dvd (n := 1) x (c >>> 4) (by omega) (by omega)

theorem add_or_32 (x c : Nat) (hx : 4 ∣ x) (hc : c < 32) :
    x ||| c >>> 3 = x + c >>> 3 :=
  or_eq_add_of_dvd (n := 2) x (c >>> 3) (by omega) (by omega)

set_option maxHeartbeats 2000000 in
theorem ulid_roundtrip_bytes
    (b0 b1 b2 b3 b4 b5 b6 b7 b8 b9 b10 b11 b12 b13 b14 b15 : Nat)
    (h0 : b0 < 256) (h1 : b1 < 256) (h2 : b2 < 256) (h3 : b3 < 256)
    (h4 : b4 < 256) (h5 : b5 < 256) (h6 : b6 < 256) (h7 : b7 < 256)
    (h8 : b8 < 256) (h9 : b9 < 256) (h10 : b10 < 256) (h11 : b11 < 256)
    (h12 : b12 < 256) (h13 : b13 < 256) (h14 : b14 < 256) (h15 : b15 < 256) :
    ulid_decode (ulid_encode
        [b0, b1, b2, b3, b4, b5, b6, b7, b8, b9, b10, b11, b12, b13, b14, b15]) =
      .ok [b0, b1, b2, b3, b4, b5, b6, b7, b8, b9, b10, b11, b12, b13, b14, b15] := by
  have hfirst : ¬(v ((ulid_encode
      [b0, b1, b2, b3, b4, b5, b6, b7, b8, b9, b10, b11, b12, b13, b14, b15]).getD 0
        nulChar) > 7) := by
    show ¬(v (set (b0 >>> 5)) > 7)
    rw [v_set (show b0 >>> 5 < 256 by omega)]
    omega
  have hv : ∀ c ∈ ulid_encode
      [b0, b1, b2, b3, b4, b5, b6, b7, b8, b9, b10, b11, b12, b13, b14, b15],
      (v c == -1) = false := by
    intro c hc
    fin_cases hc
    all_goals exact v_set_ne_all _
  have hdec2 : ulid_decode (ulid_encode
      [b0, b1, b2, b3, b4, b5, b6, b7, b8, b9, b10, b11, b12, b13, b14, b15]) =
      .ok [((v (set (b0 >>> 5))).toNat <<< 5 ||| (v (set (b0 >>> 0))).toNat >>> 0) % 256,
           ((v (set (b1 >>> 3))).toNat <<< 3 |||
             (v (set ((b1 <<< 2 ||| b2 >>> 6) &&& 31))).toNat >>> 2) % 256,
           ((v (set ((b1 <<< 2 ||| b2 >>> 6) &&& 31))).toNat <<< 6 |||
             (v (set (b2 >>> 1))).toNat <<< 1 |||
             (v (set ((b2 <<< 4 ||| b3 >>> 4) &&& 31))).toNat >>> 4) % 256,
           ((v (set ((b2 <<< 4 ||| b3 >>> 4) &&& 31))).toNat <<< 4 |||
             (v (set ((b3 <<< 1 ||| b4 >>> 7) &&& 31))).toNat >>> 1) % 256,
           ((v (set ((b3 <<< 1 ||| b4 >>> 7) &&& 31))).toNat <<< 7 |||
             (v (set (b4 >>> 2))).toNat <<< 2 |||
             (v (set ((b4 <<< 3 ||| b5 >>> 5) &&& 31))).toNat >>> 3) % 256,
           ((v (set ((b4 <<< 3 ||| b5 >>> 5) &&& 31))).toNat <<< 5 |||
             (v (set (b5 >>> 0))).toNat >>> 0) % 256,
           ((v (set (b6 >>> 3))).toNat <<< 3 |||
             (v (set ((b6 <<< 2 ||| b7 >>> 6) &&& 31))).toNat >>> 2) % 256,
           ((v (set ((b6 <<< 2 ||| b7 >>> 6) &&& 31))).toNat <<< 6 |||
             (v (set (b7 >>> 1))).toNat <<< 1 |||
             (v (set ((b7 <<< 4 ||| b8 >>> 4) &&& 31))).toNat >>> 4) % 256,
           ((v (set ((b7 <<< 4 ||| b8 >>> 4) &&& 31))).toNat <<< 4 |||
             (v (set ((b8 <<< 1 ||| b9 >>> 7) &&& 31))).toNat >>> 1) % 256,
           ((v (set ((b8 <<< 1 ||| b9 >>> 7) &&& 31))).toNat <<< 7 |||
             (v (set (b9 >>> 2))).toNat <<< 2 |||
             (v (set ((b9 <<< 3 ||| b10 >>> 5) &&& 31))).toNat >>> 3) % 256,
           ((v (set ((b9 <<< 3 ||| b10 >>> 5) &&& 31))).toNat <<< 5 |||
             (v (set (b10 >>> 0))).toNat >>> 0) % 256,
           ((v (set (b11 >>> 3))).toNat <<< 3 |||
             (v (set ((b11 <<< 2 ||| b12 >>> 6) &&& 31))).toNat >>> 2) % 256,
           ((v (set ((b11 <<< 2 ||| b12 >>> 6) &&& 31))).toNat <<< 6 |||
             (v (set (b12 >>> 1))).toNat <<< 1 |||
             (v (set ((b12 <<< 4 ||| b13 >>> 4) &&& 31))).toNat >>> 4) % 256,
           ((v (set ((b12 <<< 4 ||| b13 >>> 4) &&& 31))).toNat <<< 4 |||
             (v (set ((b13 <<< 1 ||| b14 >>> 7) &&& 31))).toNat >>> 1) % 256,
           ((v (set ((b13 <<< 1 ||| b14 >>> 7) &&& 31))).toNat <<< 7 |||
             (v (set (b14 >>> 2))).toNat <<< 2 |||
             (v (set ((b14 <<< 3 ||| b15 >>> 5) &&& 31))).toNat >>> 3) % 256,
           ((v (set ((b14 <<< 3 ||| b15 >>> 5) &&& 31))).toNat <<< 5 |||
             (v (set (b15 >>> 0))).toNat >>> 0) % 256] :=
    ulid_decode_ok_mem _ (by rfl) hfirst hv
  rw [hdec2]
  simp only [Except.ok.injEq, List.cons.injEq, and_true]
  simp (disch := omega) only [and_31, w_set, shiftLeft_or_eq_add, add_or_41, add_or_32]
  omega

theorem v_ne_of_nonneg (c : Char) (h : 0 ≤ v c) : (v c == -1) = false := by
  rw [beq_eq_false_iff_ne]
  omega

theorem set_eq_canonical {c : Char} {e : Nat} (hc : canonicalChar c)
    (he : e = (v c).toNat) : set e = c := by
  rw [he]
  exact hc.2


theorem set_eq_of_mod (a b : Nat) (ha : a < 256) (hab : a % 32 = b) :
    set a = set b := by
  rw [set_mod ha, hab]

set_option maxHeartbeats 4000000 in
/-- `ulid_encode` applied to the 16 bytes that `ulid_decode` reassembles
from 26 five-bit digits recovers exactly those digits (encode is taken
through the repeating 256-entry table, hence the `% 32` folding). -/
theorem encode_digit_form
    {w0 w1 w2 w3 w4 w5 w6 w7 w8 w9 w10 w11 w12 w13
     w14 w15 w16 w17 w18 w19 w20 w21 w22 w23 w24 w25 : Nat}
    (hw0 : w0 < 32) (hw1 : w1 < 32) (hw2 : w2 < 32) (hw3 : w3 < 32)
    (hw4 : w4 < 32) (hw5 : w5 < 32) (hw6 : w6 < 32) (hw7 : w7 < 32)
    (hw8 : w8 < 32) (hw9 : w9 < 32) (hw10 : w10 < 32) (hw11 : w11 < 32)
    (hw12 : w12 < 32) (hw13 : w13 < 32) (hw14 : w14 < 32) (hw15 : w15 < 32)
    (hw16 : w16 < 32) (hw17 : w17 < 32) (hw18 : w18 < 32) (hw19 : w19 < 32)
    (hw20 : w20 < 32) (hw21 : w21 < 32) (hw22 : w22 < 32) (hw23 : w23 < 32)
    (hw24 : w24 < 32) (hw25 : w25 < 32) (h0top : w0 ≤ 7) :
    ulid_encode [(w0 <<< 5 ||| w1 >>> 0) % 256,
                 (w2 <<< 3 ||| w3 >>> 2) % 256,
                 (w3 <<< 6 ||| w4 <<< 1 ||| w5 >>> 4) % 256,
                 (w5 <<< 4 ||| w6 >>> 1) % 256,
                 (w6 <<< 7 ||| w7 <<< 2 ||| w8 >>> 3) % 256,
                 (w8 <<< 5 ||| w9 >>> 0) % 256,
                 (w10 <<< 3 ||| w11 >>> 2) % 256,
                 (w11 <<< 6 ||| w12 <<< 1 ||| w13 >>> 4) % 256,
                 (w13 <<< 4 ||| w14 >>> 1) % 256,
                 (w14 <<< 7 ||| w15 <<< 2 ||| w16 >>> 3) % 256,
                 (w16 <<< 5 ||| w17 >>> 0) % 256,
                 (w18 <<< 3 ||| w19 >>> 2) % 256,
                 (w19 <<< 6 ||| w20 <<< 1 ||| w21 >>> 4) % 256,
                 (w21 <<< 4 ||| w22 >>> 1) % 256,
                 (w22 <<< 7 ||| w23 <<< 2 ||| w24 >>> 3) % 256,
                 (w24 <<< 5 ||| w25 >>> 0) % 256] =
      [set w0, set w1, set w2, set w3, set w4, set w5, set w6, set w7,
       set w8, set w9, set w10, set w11, set w12, set w13, set w14, set w15,
       set w16, set w17, set w18, set w19, set w20, set w21, set w22, set w23,
       set w24, set w25] := by
  generalize hB0 : (w0 <<< 5 ||| w1 >>> 0) % 256 = B0
  generalize hB1 : (w2 <<< 3 ||| w3 >>> 2) % 256 = B1
  generalize hB2 : (w3 <<< 6 ||| w4 <<< 1 ||| w5 >>> 4) % 256 = B2
  generalize hB3 : (w5 <<< 4 ||| w6 >>> 1) % 256 = B3
  generalize hB4 : (w6 <<< 7 ||| w7 <<< 2 ||| w8 >>> 3) % 256 = B4
  generalize hB5 : (w8 <<< 5 ||| w9 >>> 0) % 256 = B5
  generalize hB6 : (w10 <<< 3 ||| w11 >>> 2) % 256 = B6
  generalize hB7 : (w11 <<< 6 ||| w12 <<< 1 ||| w13 >>> 4) % 256 = B7
  generalize hB8 : (w13 <<< 4 ||| w14 >>> 1) % 256 = B8
  generalize hB9 : (w14 <<< 7 ||| w15 <<< 2 ||| w16 >>> 3) % 256 = B9
  generalize hB10 : (w16 <<< 5 ||| w17 >>> 0) % 256 = B10
  generalize hB11 : (w18 <<< 3 ||| w19 >>> 2) % 256 = B11
  generalize hB12 : (w19 <<< 6 ||| w20 <<< 1 ||| w21 >>> 4) % 256 = B12
  generalize hB13 : (w21 <<< 4 ||| w22 >>> 1) % 256 = B13
  generalize hB14 : (w22 <<< 7 ||| w23 <<< 2 ||| w24 >>> 3) % 256 = B14
  generalize hB15 : (w24 <<< 5 ||| w25 >>> 0) % 256 = B15
  have hB0b : B0 < 256 := by omega
  have hB1b : B1 < 256 := by omega
  have hB2b : B2 < 256 := by omega
  have hB3b : B3 < 256 := by omega
  have hB4b : B4 < 256 := by omega
  have hB5b : B5 < 256 := by omega
  have hB6b : B6 < 256 := by omega
  have hB7b : B7 < 256 := by omega
  have hB8b : B8 < 256 := by omega
  have hB9b : B9 < 256 := by omega
  have hB10b : B10 < 256 := by omega
  have hB11b : B11 < 256 := by omega
  have hB12b : B12 < 256 := by omega
  have hB13b : B13 < 256 := by omega
  have hB14b : B14 < 256 := by omega
  have hB15b : B15 < 256 := by omega
  simp (disch := omega) only [shiftLeft_or_eq_add, add_or_41, add_or_32] at hB0 hB1 hB2 hB3 hB4 hB5 hB6 hB7 hB8 hB9 hB10 hB11 hB12 hB13 hB14 hB15
  have hE : ulid_encode [B0, B1, B2, B3, B4, B5, B6, B7, B8,
      B9, B10, B11, B12, B13, B14, B15] =
      [set (B0 >>> 5), set (B0 >>> 0), set (B1 >>> 3),
       set ((B1 <<< 2 ||| B2 >>> 6) &&& 31), set (B2 >>> 1),
       set ((B2 <<< 4 ||| B3 >>> 4) &&& 31), set ((B3 <<< 1 ||| B4 >>> 7) &&& 31),
       set (B4 >>> 2), set ((B4 <<< 3 ||| B5 >>> 5) &&& 31), set (B5 >>> 0),
       set (B6 >>> 3), set ((B6 <<< 2 ||| B7 >>> 6) &&& 31), set (B7 >>> 1),
       set ((B7 <<< 4 ||| B8 >>> 4) &&& 31), set ((B8 <<< 1 ||| B9 >>> 7) &&& 31),
       set (B9 >>> 2), set ((B9 <<< 3 ||| B10 >>> 5) &&& 31), set (B10 >>> 0),
       set (B11 >>> 3), set ((B11 <<< 2 ||| B12 >>> 6) &&& 31), set (B12 >>> 1),
       set ((B12 <<< 4 ||| B13 >>> 4) &&& 31), set ((B13 <<< 1 ||| B14 >>> 7) &&& 31),
       set (B14 >>> 2), set ((B14 <<< 3 ||| B15 >>> 5) &&& 31), set (B15 >>> 0)] := rfl
  rw [hE]
  simp (disch := omega) only [and_31, shiftLeft_or_eq_add]
  simp only [List.cons.injEq, and_true]
  refine ⟨?_, ?_, ?_, ?_, ?_, ?_, ?_, ?_, ?_, ?_, ?_, ?_, ?_,
    ?_, ?_, ?_, ?_, ?_, ?_, ?_, ?_, ?_, ?_, ?_, ?_, ?_⟩
  all_goals apply set_eq_of_mod
  all_goals omega

set_option maxHeartbeats 4000000 in
/-- Decode followed by encode is the identity on canonical 26-character
strings (every character uppercase-alphabet, first character at most '7'). -/
theorem ulid_roundtrip_chars
    (c0 c1 c2 c3 c4 c5 c6 c7 c8 c9 c10 c11 c12 c13
     c14 c15 c16 c17 c18 c19 c20 c21 c22 c23 c24 c25 : Char)
    (k0 : canonicalChar c0) (k1 : canonicalChar c1) (k2 : canonicalChar c2)
    (k3 : canonicalChar c3) (k4 : canonicalChar c4) (k5 : canonicalChar c5)
    (k6 : canonicalChar c6) (k7 : canonicalChar c7) (k8 : canonicalChar c8)
    (k9 : canonicalChar c9) (k10 : canonicalChar c10) (k11 : canonicalChar c11)
    (k12 : canonicalChar c12) (k13 : canonicalChar c13) (k14 : canonicalChar c14)
    (k15 : canonicalChar c15) (k16 : canonicalChar c16) (k17 : canonicalChar c17)
    (k18 : canonicalChar c18) (k19 : canonicalChar c19) (k20 : canonicalChar c20)
    (k21 : canonicalChar c21) (k22 : canonicalChar c22) (k23 : canonicalChar c23)
    (k24 : canonicalChar c24) (k25 : canonicalChar c25)
    (hfirst : v c0 ≤ 7) :
    ∃ u, ulid_decode [c0, c1, c2, c3, c4, c5, c6, c7, c8, c9, c10, c11, c12, c13,
        c14, c15, c16, c17, c18, c19, c20, c21, c22, c23, c24, c25] = .ok u ∧
      ulid_encode u = [c0, c1, c2, c3, c4, c5, c6, c7, c8, c9, c10, c11, c12, c13,
        c14, c15, c16, c17, c18, c19, c20, c21, c22, c23, c24, c25] := by
  have hk0 := k0.1
  have hw0top : (v c0).toNat ≤ 7 := by omega
  have h0 : ¬(v (([c0, c1, c2, c3, c4, c5, c6, c7, c8, c9, c10, c11, c12, c13,
      c14, c15, c16, c17, c18, c19, c20, c21, c22, c23, c24, c25] : List Char).getD 0
        nulChar) > 7) := by
    show ¬(v c0 > 7)
    exact not_lt.mpr hfirst
  have hv : ∀ c ∈ ([c0, c1, c2, c3, c4, c5, c6, c7, c8, c9, c10, c11, c12, c13,
      c14, c15, c16, c17, c18, c19, c20, c21, c22, c23, c24, c25] : List Char),
      (v c == -1) = false := by
    intro c hc
    fin_cases hc
    · exact v_ne_of_nonneg _ k0.1
    · exact v_ne_of_nonneg _ k1.1
    · exact v_ne_of_nonneg _ k2.1
    · exact v_ne_of_nonneg _ k3.1
    · exact v_ne_of_nonneg _ k4.1
    · exact v_ne_of_nonneg _ k5.1
    · exact v_ne_of_nonneg _ k6.1
    · exact v_ne_of_nonneg _ k7.1
    · exact v_ne_of_nonneg _ k8.1
    · exact v_ne_of_nonneg _ k9.1
    · exact v_ne_of_nonneg _ k10.1
    · exact v_ne_of_nonneg _ k11.1
    · exact v_ne_of_nonneg _ k12.1
    · exact v_ne_of_nonneg _ k13.1
    · exact v_ne_of_nonneg _ k14.1
    · exact v_ne_of_nonneg _ k15.1
    · exact v_ne_of_nonneg _ k16.1
    · exact v_ne_of_nonneg _ k17.1
    · exact v_ne_of_nonneg _ k18.1
    · exact v_ne_of_nonneg _ k19.1
    · exact v_ne_of_nonneg _ k20.1
    · exact v_ne_of_nonneg _ k21.1
    · exact v_ne_of_nonneg _ k22.1
    · exact v_ne_of_nonneg _ k23.1
    · exact v_ne_of_nonneg _ k24.1
    · exact v_ne_of_nonneg _ k25.1
  have hd : ulid_decode [c0, c1, c2, c3, c4, c5, c6, c7, c8, c9, c10, c11, c12, c13,
      c14, c15, c16, c17, c18, c19, c20, c21, c22, c23, c24, c25] =
      .ok [((v c0).toNat <<< 5 ||| (v c1).toNat >>> 0) % 256,
           ((v c2).toNat <<< 3 ||| (v c3).toNat >>> 2) % 256,
           ((v c3).toNat <<< 6 ||| (v c4).toNat <<< 1 ||| (v c5).toNat >>> 4) % 256,
           ((v c5).toNat <<< 4 ||| (v c6).toNat >>> 1) % 256,
           ((v c6).toNat <<< 7 ||| (v c7).toNat <<< 2 ||| (v c8).toNat >>> 3) % 256,
           ((v c8).toNat <<< 5 ||| (v c9).toNat >>> 0) % 256,
           ((v c10).toNat <<< 3 ||| (v c11).toNat >>> 2) % 256,
           ((v c11).toNat <<< 6 ||| (v c12).toNat <<< 1 ||| (v c13).toNat >>> 4) % 256,
           ((v c13).toNat <<< 4 ||| (v c14).toNat >>> 1) % 256,
           ((v c14).toNat <<< 7 ||| (v c15).toNat <<< 2 ||| (v c16).toNat >>> 3) % 256,
           ((v c16).toNat <<< 5 ||| (v c17).toNat >>> 0) % 256,
           ((v c18).toNat <<< 3 ||| (v c19).toNat >>> 2) % 256,
           ((v c19).toNat <<< 6 ||| (v c20).toNat <<< 1 ||| (v c21).toNat >>> 4) % 256,
           ((v c21).toNat <<< 4 ||| (v c22).toNat >>> 1) % 256,
           ((v c22).toNat <<< 7 ||| (v c23).toNat <<< 2 ||| (v c24).toNat >>> 3) % 256,
           ((v c24).toNat <<< 5 ||| (v c25).toNat >>> 0) % 256] :=
    ulid_decode_ok_mem _ (by rfl) h0 hv
  refine ⟨_, hd, ?_⟩
  rw [encode_digit_form (w_lt c0) (w_lt c1) (w_lt c2) (w_lt c3) (w_lt c4)
    (w_lt c5) (w_lt c6) (w_lt c7) (w_lt c8) (w_lt c9) (w_lt c10) (w_lt c11)
    (w_lt c12) (w_lt c13) (w_lt c14) (w_lt c15) (w_lt c16) (w_lt c17)
    (w_lt c18) (w_lt c19) (w_lt c20) (w_lt c21) (w_lt c22) (w_lt c23)
    (w_lt c24) (w_lt c25) hw0top]
  simp only [List.cons.injEq, and_true]
  refine ⟨?_, ?_, ?_, ?_, ?_, ?_, ?_, ?_, ?_, ?_, ?_, ?_, ?_,
    ?_, ?_, ?_, ?_, ?_, ?_, ?_, ?_, ?_, ?_, ?_, ?_, ?_⟩
  all_goals apply set_eq_canonical
  all_goals first
    | assumption
    | rfl

/-- C6: Round-trip identity of the ULID codec: for every 16-byte buffer b,
`ulid_decode` applied to `ulid_encode b` succeeds and yields exactly b; and
for every valid (canonical) 26-character ULID string — every character in
the uppercase Crockford alphabet, the first one encoding at most 3 bits —
`ulid_decode` succeeds and `ulid_encode` applied to the decoded bytes
yields exactly the original string. -/
theorem ulid_codec_roundtrip :
    (∀ b0 b1 b2 b3 b4 b5 b6 b7 b8 b9 b10 b11 b12 b13 b14 b15 : Nat,
      b0 < 256 → b1 < 256 → b2 < 256 → b3 < 256 →
      b4 < 256 → b5 < 256 → b6 < 256 → b7 < 256 →
      b8 < 256 → b9 < 256 → b10 < 256 → b11 < 256 →
      b12 < 256 → b13 < 256 → b14 < 256 → b15 < 256 →
      ulid_decode (ulid_encode
          [b0, b1, b2, b3, b4, b5, b6, b7, b8, b9, b10, b11, b12, b13, b14, b15]) =
        .ok [b0, b1, b2, b3, b4, b5, b6, b7, b8, b9, b10, b11, b12, b13, b14, b15]) ∧
    (∀ c0 c1 c2 c3 c4 c5 c6 c7 c8 c9 c10 c11 c12 c13
       c14 c15 c16 c17 c18 c19 c20 c21 c22 c23 c24 c25 : Char,
      canonicalChar c0 → canonicalChar c1 → canonicalChar c2 → canonicalChar c3 →
      canonicalChar c4 → canonicalChar c5 → canonicalChar c6 → canonicalChar c7 →
      canonicalChar c8 → canonicalChar c9 → canonicalChar c10 → canonicalChar c11 →
      canonicalChar c12 → canonicalChar c13 → canonicalChar c14 → canonicalChar c15 →
      canonicalChar c16 → canonicalChar c17 → canonicalChar c18 → canonicalChar c19 →
      canonicalChar c20 → canonicalChar c21 → canonicalChar c22 → canonicalChar c23 →
      canonicalChar c24 → canonicalChar c25 → v c0 ≤ 7 →
      ∃ u, ulid_decode [c0, c1, c2, c3, c4, c5, c6, c7, c8, c9, c10, c11, c12, c13,
          c14, c15, c16, c17, c18, c19, c20, c21, c22, c23, c24, c25] = .ok u ∧
        ulid_encode u = [c0, c1, c2, c3, c4, c5, c6, c7, c8, c9, c10, c11, c12, c13,
          c14, c15, c16, c17, c18, c19, c20, c21, c22, c23, c24, c25]) := by
  constructor
  · intro b0 b1 b2 b3 b4 b5 b6 b7 b8 b9 b10 b11 b12 b13 b14 b15
      h0 h1 h2 h3 h4 h5 h6 h7 h8 h9 h10 h11 h12 h13 h14 h15
    exact ulid_roundtrip_bytes b0 b1 b2 b3 b4 b5 b6 b7 b8 b9 b10 b11 b12 b13 b14 b15
      h0 h1 h2 h3 h4 h5 h6 h7 h8 h9 h10 h11 h12 h13 h14 h15
  · intro c0 c1 c2 c3 c4 c5 c6 c7 c8 c9 c10 c11 c12 c13
      c14 c15 c16 c17 c18 c19 c20 c21 c22 c23 c24 c25
      k0 k1 k2 k3 k4 k5 k6 k7 k8 k9 k10 k11 k12 k13
      k14 k15 k16 k17 k18 k19 k20 k21 k22 k23 k24 k25 hfirst
    exact ulid_roundtrip_chars c0 c1 c2 c3 c4 c5 c6 c7 c8 c9 c10 c11 c12 c13
      c14 c15 c16 c17 c18 c19 c20 c21 c22 c23 c24 c25
      k0 k1 k2 k3 k4 k5 k6 k7 k8 k9 k10 k11 k12 k13
      k14 k15 k16 k17 k18 k19 k20 k21 k22 k23 k24 k25 hfirst

/-- Witness for C6 at the buffer 0..15 and at a concrete canonical string. -/
theorem ulid_codec_roundtrip_witness :
    ulid_decode (ulid_encode [0, 1, 2, 3, 4, 5, 6, 7, 8, 9, 10, 11, 12, 13, 14, 15]) =
      .ok [0, 1, 2, 3, 4, 5, 6, 7, 8, 9, 10, 11, 12, 13, 14, 15] ∧
    ∃ u, ulid_decode ['0', '1', '2', '3', '4', '5', '6', '7', '8', '9', 'A', 'B',
        'C', 'D', 'E', 'F', 'G', 'H', 'J', 'K', 'M', 'N', 'P', 'Q', 'R', 'S'] = .ok u ∧
      ulid_encode u = ['0', '1', '2', '3', '4', '5', '6', '7', '8', '9', 'A', 'B',
        'C', 'D', 'E', 'F', 'G', 'H', 'J', 'K', 'M', 'N', 'P', 'Q', 'R', 'S'] :=
  ⟨ulid_codec_roundtrip.1 0 1 2 3 4 5 6 7 8 9 10 11 12 13 14 15
      (by decide) (by decide) (by decide) (by decide) (by decide) (by decide)
      (by decide) (by decide) (by decide) (by decide) (by decide) (by decide)
      (by decide) (by decide) (by decide) (by decide),
   ulid_codec_roundtrip.2 '0' '1' '2' '3' '4' '5' '6' '7' '8' '9' 'A' 'B'
      'C' 'D' 'E' 'F' 'G' 'H' 'J' 'K' 'M' 'N' 'P' 'Q' 'R' 'S'
      (by decide) (by decide) (by decide) (by decide) (by decide) (by decide)
      (by decide) (by decide) (by decide) (by decide) (by decide) (by decide)
      (by decide) (by decide) (by decide) (by decide) (by decide) (by decide)
      (by decide) (by decide) (by decide) (by decide) (by decide) (by decide)
      (by decide) (by decide) (by decide)⟩

theorem foldl_val (B a : Nat) (l : List Nat) :
    l.foldl (fun acc x => acc * B + x) a = a * B ^ l.length + foldVal B l := by
  induction l generalizing a with
  | nil => simp [foldVal]
  | cons x l ih =>
    have h2 : foldVal B (x :: l) = x * B ^ l.length + foldVal B l := by
      simpa [foldVal] using ih x
    rw [List.foldl_cons, ih (a * B + x), h2, List.length_cons]
    ring

theorem foldVal_cons (B x : Nat) (l : List Nat) :
    foldVal B (x :: l) = x * B ^ l.length + foldVal B l := by
  simpa [foldVal] using foldl_val B x l

theorem foldVal_append (B : Nat) (xs ys : List Nat) :
    foldVal B (xs ++ ys) = foldVal B xs * B ^ ys.length + foldVal B ys := by
  unfold foldVal
  rw [List.foldl_append]
  exact foldl_val B _ ys

theorem foldVal_lt (B : Nat) (hB : 0 < B) (l : List Nat) (h : ∀ x ∈ l, x < B) :
    foldVal B l < B ^ l.length := by
  induction l with
  | nil => simpa [foldVal] using hB
  | cons x l ih =>
    rw [foldVal_cons, List.length_cons]
    have hx : x < B := h x (by simp)
    have hl : foldVal B l < B ^ l.length := ih (fun y hy => h y (by simp [hy]))
    calc x * B ^ l.length + foldVal B l
        < x * B ^ l.length + B ^ l.length := Nat.add_lt_add_left hl _
      _ = (x + 1) * B ^ l.length := by ring
      _ ≤ B * B ^ l.length := Nat.mul_le_mul_right _ hx
      _ = B ^ (l.length + 1) := by ring

theorem lex_foldVal (B : Nat) (hB : 0 < B) (a : List Nat) : ∀ (b : List Nat),
    a.length = b.length → (∀ x ∈ a, x < B) → (∀ x ∈ b, x < B) →
    (lexLtB a b = true ↔ foldVal B a < foldVal B b) := by
  induction a with
  | nil =>
    intro b hlen _ _
    have hb0 : b = [] := List.eq_nil_of_length_eq_zero hlen.symm
    subst hb0
    simp [lexLtB, foldVal]
  | cons x a ih =>
    intro b hlen ha hb
    rcases b with _ | ⟨y, b⟩
    · simp at hlen
    · have hlen' : a.length = b.length := by simpa using hlen
      have hx : x < B := ha x (by simp)
      have hy : y < B := hb y (by simp)
      have ha' : ∀ z ∈ a, z < B := fun z hz => ha z (by simp [hz])
      have hb' : ∀ z ∈ b, z < B := fun z hz => hb z (by simp [hz])
      have hfa : foldVal B a < B ^ b.length := hlen' ▸ foldVal_lt B hB a ha'
      have hfb : foldVal B b < B ^ b.length := foldVal_lt B hB b hb'
      rw [foldVal_cons, foldVal_cons, hlen']
      simp only [lexLtB]
      rcases Nat.lt_trichotomy x y with h | h | h
      · rw [if_pos h]
        have hv : x * B ^ b.length + foldVal B a < y * B ^ b.length + foldVal B b :=
          calc x * B ^ b.length + foldVal B a
              < x * B ^ b.length + B ^ b.length := Nat.add_lt_add_left hfa _
            _ = (x + 1) * B ^ b.length := by ring
            _ ≤ y * B ^ b.length := Nat.mul_le_mul_right _ h
            _ ≤ y * B ^ b.length + foldVal B b := Nat.le_add_right _ _
        simp [hv]
      · subst h
        rw [if_neg (lt_irrefl x), if_neg (lt_irrefl x)]
        rw [ih b hlen' ha' hb']
        exact (add_lt_add_iff_left _).symm
      · rw [if_neg (by omega), if_pos h]
        have hv : y * B ^ b.length + foldVal B b < x * B ^ b.length + foldVal B a :=
          calc y * B ^ b.length + foldVal B b
              < y * B ^ b.length + B ^ b.length := Nat.add_lt_add_left hfb _
            _ = (y + 1) * B ^ b.length := by ring
            _ ≤ x * B ^ b.length := Nat.mul_le_mul_right _ h
            _ ≤ x * B ^ b.length + foldVal B a := Nat.le_add_right _ _
        simp only [Bool.false_eq_true, false_iff]
        exact Nat.not_lt.mpr (Nat.le_of_lt hv)

theorem set_toNat_lt_iff : ∀ a b : Fin 32,
    ((set (a : Nat)).toNat < (set (b : Nat)).toNat ↔ (a : Nat) < (b : Nat)) := by decide

theorem set_code_lt_iff {a b : Nat} (ha : a < 32) (hb : b < 32) :
    ((set a).toNat < (set b).toNat ↔ a < b) := set_toNat_lt_iff ⟨a, ha⟩ ⟨b, hb⟩

theorem lex_set256_map : ∀ (A : List Nat), ∀ (B : List Nat),
    (∀ x ∈ A, x < 256) → (∀ x ∈ B, x < 256) →
    lexLtB (A.map (Char.toNat ∘ set)) (B.map (Char.toNat ∘ set)) =
      lexLtB (A.map (fun d => d % 32)) (B.map (fun d => d % 32)) := by
  intro A
  induction A with
  | nil =>
    intro B _ _
    rcases B with _ | ⟨y, B⟩
    · rfl
    · rfl
  | cons x A ih =>
    intro B hA hB
    rcases B with _ | ⟨y, B⟩
    · rfl
    · simp only [List.map_cons, lexLtB, Function.comp_apply]
      have hx := hA x (by simp)
      have hy := hB y (by simp)
      have hA' : ∀ z ∈ A, z < 256 := fun z hz => hA z (by simp [hz])
      have hB' : ∀ z ∈ B, z < 256 := fun z hz => hB z (by simp [hz])
      simp only [set_mod hx, set_mod hy, ih B hA' hB']
      rcases Nat.lt_trichotomy (x % 32) (y % 32) with h | h | h
      · rw [if_pos ((set_code_lt_iff (by omega) (by omega)).mpr h), if_pos h]
      · have c1 : ¬((set (x % 32)).toNat < (set (y % 32)).toNat) := by
          rw [set_code_lt_iff (by omega) (by omega)]
          omega
        have c2 : ¬((set (y % 32)).toNat < (set (x % 32)).toNat) := by
          rw [set_code_lt_iff (by omega) (by omega)]
          omega
        rw [if_neg c1, if_neg c2, if_neg (show ¬(x % 32 < y % 32) by omega),
          if_neg (show ¬(y % 32 < x % 32) by omega)]
      · have c1 : ¬((set (x % 32)).toNat < (set (y % 32)).toNat) := by
          rw [set_code_lt_iff (by omega) (by omega)]
          omega
        have c2 : (set (y % 32)).toNat < (set (x % 32)).toNat :=
          (set_code_lt_iff (by omega) (by omega)).mpr h
        rw [if_neg c1, if_pos c2, if_neg (show ¬(x % 32 < y % 32) by omega), if_pos h]

theorem encode_eq_map (u : List Nat) : ulid_encode u = List.map set (rawDigits u) := rfl

theorem getD_lt_256 (u : List Nat) (hb : ∀ x ∈ u, x < 256) (i : Nat) :
    u.getD i 0 < 256 := by
  by_cases h : i < u.length
  · exact hb _ (getD_mem u 0 h)
  · rw [List.getD_eq_default _ _ (by omega)]
    omega

theorem rawDigits_lt (u : List Nat) (hb : ∀ x ∈ u, x < 256) :
    ∀ x ∈ rawDigits u, x < 256 := by
  intro x hx
  have h0 := getD_lt_256 u hb 0
  have h1 := getD_lt_256 u hb 1
  have h2 := getD_lt_256 u hb 2
  have h3 := getD_lt_256 u hb 3
  have h4 := getD_lt_256 u hb 4
  have h5 := getD_lt_256 u hb 5
  have h6 := getD_lt_256 u hb 6
  have h7 := getD_lt_256 u hb 7
  have h8 := getD_lt_256 u hb 8
  have h9 := getD_lt_256 u hb 9
  have h10 := getD_lt_256 u hb 10
  have h11 := getD_lt_256 u hb 11
  have h12 := getD_lt_256 u hb 12
  have h13 := getD_lt_256 u hb 13
  have h14 := getD_lt_256 u hb 14
  have h15 := getD_lt_256 u hb 15
  simp only [rawDigits] at hx
  fin_cases hx
  all_goals first
    | omega
    | exact lt_of_le_of_lt Nat.and_le_right (by omega)

theorem list_eq_16 (l : List Nat) (h : l.length = 16) :
    ∃ a0 a1 a2 a3 a4 a5 a6 a7 a8 a9 a10 a11 a12 a13 a14 a15,
      l = [a0, a1, a2, a3, a4, a5, a6, a7, a8, a9, a10, a11, a12, a13, a14, a15] := by
  rcases l with _ | ⟨a0, l⟩
  · simp only [List.length_nil] at h
    omega
  rcases l with _ | ⟨a1, l⟩
  · simp only [List.length_cons, List.length_nil] at h
    omega
  rcases l with _ | ⟨a2, l⟩
  · simp only [List.length_cons, List.length_nil] at h
    omega
  rcases l with _ | ⟨a3, l⟩
  · simp only [List.length_cons, List.length_nil] at h
    omega
  rcases l with _ | ⟨a4, l⟩
  · simp only [List.length_cons, List.length_nil] at h
    omega
  rcases l with _ | ⟨a5, l⟩
  · simp only [List.length_cons, List.length_nil] at h
    omega
  rcases l with _ | ⟨a6, l⟩
  · simp only [List.length_cons, List.length_nil] at h
    omega
  rcases l with _ | ⟨a7, l⟩
  · simp only [List.length_cons, List.length_nil] at h
    omega
  rcases l with _ | ⟨a8, l⟩
  · simp only [List.length_cons, List.length_nil] at h
    omega
  rcases l with _ | ⟨a9, l⟩
  · simp only [List.length_cons, List.length_nil] at h
    omega
  rcases l with _ | ⟨a10, l⟩
  · simp only [List.length_cons, List.length_nil] at h
    omega
  rcases l with _ | ⟨a11, l⟩
  · simp only [List.length_cons, List.length_nil] at h
    omega
  rcases l with _ | ⟨a12, l⟩
  · simp only [List.length_cons, List.length_nil] at h
    omega
  rcases l with _ | ⟨a13, l⟩
  · simp only [List.length_cons, List.length_nil] at h
    omega
  rcases l with _ | ⟨a14, l⟩
  · simp only [List.length_cons, List.length_nil] at h
    omega
  rcases l with _ | ⟨a15, l⟩
  · simp only [List.length_cons, List.length_nil] at h
    omega
  rcases l with _ | ⟨a16, l⟩
  · exact ⟨a0, a1, a2, a3, a4, a5, a6, a7, a8, a9, a10, a11, a12, a13, a14, a15, rfl⟩
  · simp only [List.length_cons, List.length_nil] at h
    omega


theorem val_digits_head (x0 : Nat) (h0 : x0 < 256) :
    foldVal 32 [(x0 >>> 5) % 32, (x0 >>> 0) % 32] = x0 := by
  simp only [foldVal, List.foldl]
  omega

set_option maxHeartbeats 1000000 in
theorem val_digits_block (x1 x2 x3 x4 x5 : Nat)
    (h1 : x1 < 256) (h2 : x2 < 256) (h3 : x3 < 256) (h4 : x4 < 256) (h5 : x5 < 256) :
    foldVal 32 [(x1 >>> 3) % 32,
                ((x1 <<< 2 ||| x2 >>> 6) &&& 0x1f) % 32,
                (x2 >>> 1) % 32,
                ((x2 <<< 4 ||| x3 >>> 4) &&& 0x1f) % 32,
                ((x3 <<< 1 ||| x4 >>> 7) &&& 0x1f) % 32,
                (x4 >>> 2) % 32,
                ((x4 <<< 3 ||| x5 >>> 5) &&& 0x1f) % 32,
                (x5 >>> 0) % 32] =
      foldVal 256 [x1, x2, x3, x4, x5] := by
  simp only [foldVal, List.foldl]
  simp (disch := omega) only [and_31, shiftLeft_or_eq_add, add_or_41, add_or_32]
  omega

theorem rawDigits_length (u : List Nat) : (rawDigits u).length = 26 := rfl

/-- The 26 folded five-bit digits of `ulid_encode` carry the base-256
value of the 16-byte buffer in base 32. -/
theorem val_digits (u : List Nat) (hlen : u.length = 16) (hb : ∀ x ∈ u, x < 256) :
    foldVal 32 ((rawDigits u).map (fun d => d % 32)) = foldVal 256 u := by
  obtain ⟨b0, b1, b2, b3, b4, b5, b6, b7, b8, b9, b10, b11, b12, b13, b14, b15, rfl⟩ :=
    list_eq_16 u hlen
  have h0 : b0 < 256 := hb _ (by simp)
  have h1 : b1 < 256 := hb _ (by simp)
  have h2 : b2 < 256 := hb _ (by simp)
  have h3 : b3 < 256 := hb _ (by simp)
  have h4 : b4 < 256 := hb _ (by simp)
  have h5 : b5 < 256 := hb _ (by simp)
  have h6 : b6 < 256 := hb _ (by simp)
  have h7 : b7 < 256 := hb _ (by simp)
  have h8 : b8 < 256 := hb _ (by simp)
  have h9 : b9 < 256 := hb _ (by simp)
  have h10 : b10 < 256 := hb _ (by simp)
  have h11 : b11 < 256 := hb _ (by simp)
  have h12 : b12 < 256 := hb _ (by simp)
  have h13 : b13 < 256 := hb _ (by simp)
  have h14 : b14 < 256 := hb _ (by simp)
  have h15 : b15 < 256 := hb _ (by simp)
  show foldVal 32
      ([(b0 >>> 5) % 32, (b0 >>> 0) % 32] ++
       [(b1 >>> 3) % 32,
        ((b1 <<< 2 ||| b2 >>> 6) &&& 0x1f) % 32,
        (b2 >>> 1) % 32,
        ((b2 <<< 4 ||| b3 >>> 4) &&& 0x1f) % 32,
        ((b3 <<< 1 ||| b4 >>> 7) &&& 0x1f) % 32,
        (b4 >>> 2) % 32,
        ((b4 <<< 3 ||| b5 >>> 5) &&& 0x1f) % 32,
        (b5 >>> 0) % 32] ++
       [(b6 >>> 3) % 32,
        ((b6 <<< 2 ||| b7 >>> 6) &&& 0x1f) % 32,
        (b7 >>> 1) % 32,
        ((b7 <<< 4 ||| b8 >>> 4) &&& 0x1f) % 32,
        ((b8 <<< 1 ||| b9 >>> 7) &&& 0x1f) % 32,
        (b9 >>> 2) % 32,
        ((b9 <<< 3 ||| b10 >>> 5) &&& 0x1f) % 32,
        (b10 >>> 0) % 32] ++
       [(b11 >>> 3) % 32,
        ((b11 <<< 2 ||| b12 >>> 6) &&& 0x1f) % 32,
        (b12 >>> 1) % 32,
        ((b12 <<< 4 ||| b13 >>> 4) &&& 0x1f) % 32,
        ((b13 <<< 1 ||| b14 >>> 7) &&& 0x1f) % 32,
        (b14 >>> 2) % 32,
        ((b14 <<< 3 ||| b15 >>> 5) &&& 0x1f) % 32,
        (b15 >>> 0) % 32]) =
    foldVal 256
      ([b0] ++ [b1, b2, b3, b4, b5] ++ [b6, b7, b8, b9, b10] ++ [b11, b12, b13, b14, b15])
  rw [foldVal_append, foldVal_append, foldVal_append,
      foldVal_append, foldVal_append, foldVal_append]
  rw [val_digits_head b0 h0,
      val_digits_block b1 b2 b3 b4 b5 h1 h2 h3 h4 h5,
      val_digits_block b6 b7 b8 b9 b10 h6 h7 h8 h9 h10,
      val_digits_block b11 b12 b13 b14 b15 h11 h12 h13 h14 h15]
  have e0 : foldVal 256 [b0] = b0 := by
    simp [foldVal]
  rw [e0]
  simp only [List.length_append, List.length_cons, List.length_nil]
  norm_num

/-- `ulid_encode` is strictly monotone: a 16-byte buffer with smaller
base-256 value encodes to a bytewise-smaller 26-character string. -/
theorem encode_lt (A B : List Nat) (hA : A.length = 16) (hB : B.length = 16)
    (ha : ∀ x ∈ A, x < 256) (hb : ∀ x ∈ B, x < 256)
    (hv : foldVal 256 A < foldVal 256 B) :
    strLtB (ulid_encode A) (ulid_encode B) = true := by
  simp only [strLtB, encode_eq_map, List.map_map]
  rw [lex_set256_map (rawDigits A) (rawDigits B) (rawDigits_lt A ha) (rawDigits_lt B hb)]
  have hiff := lex_foldVal 32 (by omega)
    ((rawDigits A).map (fun d => d % 32)) ((rawDigits B).map (fun d => d % 32))
    (by simp [rawDigits_length])
    (by
      intro x hx
      obtain ⟨d, hd, hdx⟩ := List.mem_map.mp hx
      omega)
    (by
      intro x hx
      obtain ⟨d, hd, hdx⟩ := List.mem_map.mp hx
      omega)
  rw [hiff, val_digits A hA ha, val_digits B hB hb]
  exact hv

theorem take_set_of_le {α : Type} (l : List α) (i : Nat) (v : α) (n : Nat) (h : n ≤ i) :
    (l.set i v).take n = l.take n := by
  induction l generalizing i n with
  | nil => simp
  | cons x l ih =>
    cases i with
    | zero =>
      have hn : n = 0 := by omega
      subst hn
      simp
    | succ i =>
      cases n with
      | zero => simp
      | succ n =>
        show (x :: l.set i v).take (n + 1) = (x :: l).take (n + 1)
        rw [List.take_succ_cons, List.take_succ_cons, ih i n (by omega)]

theorem rc4_s_bound (g : UlidGen) (hs : ∀ x ∈ g.s, x < 256) :
    ∀ x ∈ (rc4_next g).1.s, x < 256 := by
  intro x hx
  simp only [rc4_next] at hx
  rcases List.mem_or_eq_of_mem_set hx with hx2 | rfl
  · rcases List.mem_or_eq_of_mem_set hx2 with hx3 | rfl
    · exact hs x hx3
    · exact getD_lt_256 _ hs _
  · exact getD_lt_256 _ hs _

theorem rc4_s_length (g : UlidGen) : (rc4_next g).1.s.length = g.s.length := by
  simp [rc4_next]

theorem rc4_out_lt (g : UlidGen) (hs : ∀ x ∈ g.s, x < 256) : (rc4_next g).2 < 256 :=
  getD_lt_256 _ (rc4_s_bound g hs) _

theorem fill_inv (ks : List Nat) : ∀ (g : UlidGen),
    (∀ x ∈ g.s, x < 256) → (∀ x ∈ g.last, x < 256) →
    fillInv g (ks.foldl
      (fun g k =>
        let p := rc4_next g
        { p.1 with last := p.1.last.set (6 + k) p.2 }) g) := by
  induction ks with
  | nil =>
    intro g hs hl
    exact ⟨hs, rfl, rfl, hl, rfl, rfl, rfl⟩
  | cons k ks ih =>
    intro g hs hl
    rw [List.foldl_cons]
    have hstep_s : ∀ x ∈ (rc4_next g).1.s, x < 256 := rc4_s_bound g hs
    have hout : (rc4_next g).2 < 256 := rc4_out_lt g hs
    have hstep_l : ∀ x ∈ ((rc4_next g).1.last.set (6 + k) (rc4_next g).2), x < 256 := by
      intro x hx
      rcases List.mem_or_eq_of_mem_set hx with hx2 | rfl
      · exact hl x hx2
      · exact hout
    obtain ⟨c1, c2, c3, c4, c5, c6, c7⟩ :=
      ih { (rc4_next g).1 with last := (rc4_next g).1.last.set (6 + k) (rc4_next g).2 }
        hstep_s hstep_l
    refine ⟨c1, ?_, ?_, c4, ?_, c6, c7⟩
    · rw [c2]
      exact rc4_s_length g
    · rw [c3, List.length_set]
      rfl
    · rw [c5, take_set_of_le _ _ _ _ (by omega)]
      rfl

theorem ulid_fill_inv (g : UlidGen) (hs : ∀ x ∈ g.s, x < 256)
    (hl : ∀ x ∈ g.last, x < 256) : fillInv g (ulid_fill g) :=
  fill_inv (List.range 10) g hs hl

theorem inc_from_stop (u : List Nat) (i : Nat) (h : i ≤ 5) : inc_from u i = u := by
  unfold inc_from
  rw [if_pos h]

theorem inc_from_done (u : List Nat) (i : Nat) (hi : ¬ i ≤ 5)
    (hne : (u.getD i 0 + 1) % 256 ≠ 0) :
    inc_from u i = u.set i ((u.getD i 0 + 1) % 256) := by
  unfold inc_from
  simp only [if_neg hi, if_neg hne]

theorem inc_from_wrap (u : List Nat) (i : Nat) (hi : ¬ i ≤ 5)
    (h255 : u.getD i 0 = 255) :
    inc_from u i = inc_from (u.set i 0) (i - 1) := by
  conv_lhs => rw [inc_from]
  rw [if_neg hi, h255]
  norm_num
set_option maxHeartbeats 1000000 in
/-- The increment loop of `ulid_generate` adds exactly one to the 80-bit
random section when that section does not overflow, and never touches the
six timestamp bytes. -/
theorem inc_spec (a0 a1 a2 a3 a4 a5 x6 x7 x8 x9 x10 x11 x12 x13 x14 x15 : Nat)
    (hb6 : x6 < 256) (hb7 : x7 < 256) (hb8 : x8 < 256) (hb9 : x9 < 256)
    (hb10 : x10 < 256) (hb11 : x11 < 256) (hb12 : x12 < 256) (hb13 : x13 < 256)
    (hb14 : x14 < 256) (hb15 : x15 < 256)
    (hov : foldVal 256 [x6, x7, x8, x9, x10, x11, x12, x13, x14, x15] < 2 ^ 80 - 1) :
    ∃ M, inc_from [a0, a1, a2, a3, a4, a5, x6, x7, x8, x9, x10, x11, x12, x13, x14, x15] 15 =
        [a0, a1, a2, a3, a4, a5] ++ M ∧ M.length = 10 ∧ (∀ y ∈ M, y < 256) ∧
        foldVal 256 M = foldVal 256 [x6, x7, x8, x9, x10, x11, x12, x13, x14, x15] + 1 := by
  rcases eq_or_ne x15 255 with rfl | hn15
  · have e15 : inc_from [a0, a1, a2, a3, a4, a5, x6, x7, x8, x9, x10, x11, x12, x13, x14, 255] 15 = inc_from [a0, a1, a2, a3, a4, a5, x6, x7, x8, x9, x10, x11, x12, x13, x14, 0] 14 := by
      have h := inc_from_wrap [a0, a1, a2, a3, a4, a5, x6, x7, x8, x9, x10, x11, x12, x13, x14, 255] 15 (by omega) rfl
      exact h
    rcases eq_or_ne x14 255 with rfl | hn14
    · have e14 : inc_from [a0, a1, a2, a3, a4, a5, x6, x7, x8, x9, x10, x11, x12, x13, 255, 0] 14 = inc_from [a0, a1, a2, a3, a4, a5, x6, x7, x8, x9, x10, x11, x12, x13, 0, 0] 13 := by
        have h := inc_from_wrap [a0, a1, a2, a3, a4, a5, x6, x7, x8, x9, x10, x11, x12, x13, 255, 0] 14 (by omega) rfl
        exact h
      rcases eq_or_ne x13 255 with rfl | hn13
      · have e13 : inc_from [a0, a1, a2, a3, a4, a5, x6, x7, x8, x9, x10, x11, x12, 255, 0, 0] 13 = inc_from [a0, a1, a2, a3, a4, a5, x6, x7, x8, x9, x10, x11, x12, 0, 0, 0] 12 := by
          have h := inc_from_wrap [a0, a1, a2, a3, a4, a5, x6, x7, x8, x9, x10, x11, x12, 255, 0, 0] 13 (by omega) rfl
          exact h
        rcases eq_or_ne x12 255 with rfl | hn12
        · have e12 : inc_from [a0, a1, a2, a3, a4, a5, x6, x7, x8, x9, x10, x11, 255, 0, 0, 0] 12 = inc_from [a0, a1, a2, a3, a4, a5, x6, x7, x8, x9, x10, x11, 0, 0, 0, 0] 11 := by
            have h := inc_from_wrap [a0, a1, a2, a3, a4, a5, x6, x7, x8, x9, x10, x11, 255, 0, 0, 0] 12 (by omega) rfl
            exact h
          rcases eq_or_ne x11 255 with rfl | hn11
          · have e11 : inc_from [a0, a1, a2, a3, a4, a5, x6, x7, x8, x9, x10, 255, 0, 0, 0, 0] 11 = inc_from [a0, a1, a2, a3, a4, a5, x6, x7, x8, x9, x10, 0, 0, 0, 0, 0] 10 := by
              have h := inc_from_wrap [a0, a1, a2, a3, a4, a5, x6, x7, x8, x9, x10, 255, 0, 0, 0, 0] 11 (by omega) rfl
              exact h
            rcases eq_or_ne x10 255 with rfl | hn10
            · have e10 : inc_from [a0, a1, a2, a3, a4, a5, x6, x7, x8, x9, 255, 0, 0, 0, 0, 0] 10 = inc_from [a0, a1, a2, a3, a4, a5, x6, x7, x8, x9, 0, 0, 0, 0, 0, 0] 9 := by
                have h := inc_from_wrap [a0, a1, a2, a3, a4, a5, x6, x7, x8, x9, 255, 0, 0, 0, 0, 0] 10 (by omega) rfl
                exact h
              rcases eq_or_ne x9 255 with rfl | hn9
              · have e9 : inc_from [a0, a1, a2, a3, a4, a5, x6, x7, x8, 255, 0, 0, 0, 0, 0, 0] 9 = inc_from [a0, a1, a2, a3, a4, a5, x6, x7, x8, 0, 0, 0, 0, 0, 0, 0] 8 := by
                  have h := inc_from_wrap [a0, a1, a2, a3, a4, a5, x6, x7, x8, 255, 0, 0, 0, 0, 0, 0] 9 (by omega) rfl
                  exact h
                rcases eq_or_ne x8 255 with rfl | hn8
                · have e8 : inc_from [a0, a1, a2, a3, a4, a5, x6, x7, 255, 0, 0, 0, 0, 0, 0, 0] 8 = inc_from [a0, a1, a2, a3, a4, a5, x6, x7, 0, 0, 0, 0, 0, 0, 0, 0] 7 := by
                    have h := inc_from_wrap [a0, a1, a2, a3, a4, a5, x6, x7, 255, 0, 0, 0, 0, 0, 0, 0] 8 (by omega) rfl
                    exact h
                  rcases eq_or_ne x7 255 with rfl | hn7
                  · have e7 : inc_from [a0, a1, a2, a3, a4, a5, x6, 255, 0, 0, 0, 0, 0, 0, 0, 0] 7 = inc_from [a0, a1, a2, a3, a4, a5, x6, 0, 0, 0, 0, 0, 0, 0, 0, 0] 6 := by
                      have h := inc_from_wrap [a0, a1, a2, a3, a4, a5, x6, 255, 0, 0, 0, 0, 0, 0, 0, 0] 7 (by omega) rfl
                      exact h
                    rcases eq_or_ne x6 255 with rfl | hn6
                    · exfalso
                      simp only [foldVal, List.foldl] at hov
                      omega
                    · have d6 : inc_from [a0, a1, a2, a3, a4, a5, x6, 0, 0, 0, 0, 0, 0, 0, 0, 0] 6 =
                          List.set [a0, a1, a2, a3, a4, a5, x6, 0, 0, 0, 0, 0, 0, 0, 0, 0] 6 ((List.getD [a0, a1, a2, a3, a4, a5, x6, 0, 0, 0, 0, 0, 0, 0, 0, 0] 6 0 + 1) % 256) := by
                        refine inc_from_done _ 6 (by omega) ?_
                        show (x6 + 1) % 256 ≠ 0
                        omega
                      refine ⟨[(x6 + 1) % 256, 0, 0, 0, 0, 0, 0, 0, 0, 0], ?_, rfl, ?_, ?_⟩
                      · rw [e15, e14, e13, e12, e11, e10, e9, e8, e7, d6] <;> rfl
                      · intro y hy
                        fin_cases hy <;> omega
                      · simp only [foldVal, List.foldl]
                        omega
                  · have d7 : inc_from [a0, a1, a2, a3, a4, a5, x6, x7, 0, 0, 0, 0, 0, 0, 0, 0] 7 =
                        List.set [a0, a1, a2, a3, a4, a5, x6, x7, 0, 0, 0, 0, 0, 0, 0, 0] 7 ((List.getD [a0, a1, a2, a3, a4, a5, x6, x7, 0, 0, 0, 0, 0, 0, 0, 0] 7 0 + 1) % 256) := by
                      refine inc_from_done _ 7 (by omega) ?_
                      show (x7 + 1) % 256 ≠ 0
                      omega
                    refine ⟨[x6, (x7 + 1) % 256, 0, 0, 0, 0, 0, 0, 0, 0], ?_, rfl, ?_, ?_⟩
                    · rw [e15, e14, e13, e12, e11, e10, e9, e8, d7] <;> rfl
                    · intro y hy
                      fin_cases hy <;> omega
                    · simp only [foldVal, List.foldl]
                      omega
                · have d8 : inc_from [a0, a1, a2, a3, a4, a5, x6, x7, x8, 0, 0, 0, 0, 0, 0, 0] 8 =
                      List.set [a0, a1, a2, a3, a4, a5, x6, x7, x8, 0, 0, 0, 0, 0, 0, 0] 8 ((List.getD [a0, a1, a2, a3, a4, a5, x6, x7, x8, 0, 0, 0, 0, 0, 0, 0] 8 0 + 1) % 256) := by
                    refine inc_from_done _ 8 (by omega) ?_
                    show (x8 + 1) % 256 ≠ 0
                    omega
                  refine ⟨[x6, x7, (x8 + 1) % 256, 0, 0, 0, 0, 0, 0, 0], ?_, rfl, ?_, ?_⟩
                  · rw [e15, e14, e13, e12, e11, e10, e9, d8] <;> rfl
                  · intro y hy
                    fin_cases hy <;> omega
                  · simp only [foldVal, List.foldl]
                    omega
              · have d9 : inc_from [a0, a1, a2, a3, a4, a5, x6, x7, x8, x9, 0, 0, 0, 0, 0, 0] 9 =
                    List.set [a0, a1, a2, a3, a4, a5, x6, x7, x8, x9, 0, 0, 0, 0, 0, 0] 9 ((List.getD [a0, a1, a2, a3, a4, a5, x6, x7, x8, x9, 0, 0, 0, 0, 0, 0] 9 0 + 1) % 256) := by
                  refine inc_from_done _ 9 (by omega) ?_
                  show (x9 + 1) % 256 ≠ 0
                  omega
                refine ⟨[x6, x7, x8, (x9 + 1) % 256, 0, 0, 0, 0, 0, 0], ?_, rfl, ?_, ?_⟩
                · rw [e15, e14, e13, e12, e11, e10, d9] <;> rfl
                · intro y hy
                  fin_cases hy <;> omega
                · simp only [foldVal, List.foldl]
                  omega
            · have d10 : inc_from [a0, a1, a2, a3, a4, a5, x6, x7, x8, x9, x10, 0, 0, 0, 0, 0] 10 =
                  List.set [a0, a1, a2, a3, a4, a5, x6, x7, x8, x9, x10, 0, 0, 0, 0, 0] 10 ((List.getD [a0, a1, a2, a3, a4, a5, x6, x7, x8, x9, x10, 0, 0, 0, 0, 0] 10 0 + 1) % 256) := by
                refine inc_from_done _ 10 (by omega) ?_
                show (x10 + 1) % 256 ≠ 0
                omega
              refine ⟨[x6, x7, x8, x9, (x10 + 1) % 256, 0, 0, 0, 0, 0], ?_, rfl, ?_, ?_⟩
              · rw [e15, e14, e13, e12, e11, d10] <;> rfl
              · intro y hy
                fin_cases hy <;> omega
              · simp only [foldVal, List.foldl]
                omega
          · have d11 : inc_from [a0, a1, a2, a3, a4, a5, x6, x7, x8, x9, x10, x11, 0, 0, 0, 0] 11 =
                List.set [a0, a1, a2, a3, a4, a5, x6, x7, x8, x9, x10, x11, 0, 0, 0, 0] 11 ((List.getD [a0, a1, a2, a3, a4, a5, x6, x7, x8, x9, x10, x11, 0, 0, 0, 0] 11 0 + 1) % 256) := by
              refine inc_from_done _ 11 (by omega) ?_
              show (x11 + 1) % 256 ≠ 0
              omega
            refine ⟨[x6, x7, x8, x9, x10, (x11 + 1) % 256, 0, 0, 0, 0], ?_, rfl, ?_, ?_⟩
            · rw [e15, e14, e13, e12, d11] <;> rfl
            · intro y hy
              fin_cases hy <;> omega
            · simp only [foldVal, List.foldl]
              omega
        · have d12 : inc_from [a0, a1, a2, a3, a4, a5, x6, x7, x8, x9, x10, x11, x12, 0, 0, 0] 12 =
              List.set [a0, a1, a2, a3, a4, a5, x6, x7, x8, x9, x10, x11, x12, 0, 0, 0] 12 ((List.getD [a0, a1, a2, a3, a4, a5, x6, x7, x8, x9, x10, x11, x12, 0, 0, 0] 12 0 + 1) % 256) := by
            refine inc_from_done _ 12 (by omega) ?_
            show (x12 + 1) % 256 ≠ 0
            omega
          refine ⟨[x6, x7, x8, x9, x10, x11, (x12 + 1) % 256, 0, 0, 0], ?_, rfl, ?_, ?_⟩
          · rw [e15, e14, e13, d12] <;> rfl
          · intro y hy
            fin_cases hy <;> omega
          · simp only [foldVal, List.foldl]
            omega
      · have d13 : inc_from [a0, a1, a2, a3, a4, a5, x6, x7, x8, x9, x10, x11, x12, x13, 0, 0] 13 =
            List.set [a0, a1, a2, a3, a4, a5, x6, x7, x8, x9, x10, x11, x12, x13, 0, 0] 13 ((List.getD [a0, a1, a2, a3, a4, a5, x6, x7, x8, x9, x10, x11, x12, x13, 0, 0] 13 0 + 1) % 256) := by
          refine inc_from_done _ 13 (by omega) ?_
          show (x13 + 1) % 256 ≠ 0
          omega
        refine ⟨[x6, x7, x8, x9, x10, x11, x12, (x13 + 1) % 256, 0, 0], ?_, rfl, ?_, ?_⟩
        · rw [e15, e14, d13] <;> rfl
        · intro y hy
          fin_cases hy <;> omega
        · simp only [foldVal, List.foldl]
          omega
    · have d14 : inc_from [a0, a1, a2, a3, a4, a5, x6, x7, x8, x9, x10, x11, x12, x13, x14, 0] 14 =
          List.set [a0, a1, a2, a3, a4, a5, x6, x7, x8, x9, x10, x11, x12, x13, x14, 0] 14 ((List.getD [a0, a1, a2, a3, a4, a5, x6, x7, x8, x9, x10, x11, x12, x13, x14, 0] 14 0 + 1) % 256) := by
        refine inc_from_done _ 14 (by omega) ?_
        show (x14 + 1) % 256 ≠ 0
        omega
      refine ⟨[x6, x7, x8, x9, x10, x11, x12, x13, (x14 + 1) % 256, 0], ?_, rfl, ?_, ?_⟩
      · rw [e15, d14] <;> rfl
      · intro y hy
        fin_cases hy <;> omega
      · simp only [foldVal, List.foldl]
        omega
  · have d15 : inc_from [a0, a1, a2, a3, a4, a5, x6, x7, x8, x9, x10, x11, x12, x13, x14, x15] 15 =
        List.set [a0, a1, a2, a3, a4, a5, x6, x7, x8, x9, x10, x11, x12, x13, x14, x15] 15 ((List.getD [a0, a1, a2, a3, a4, a5, x6, x7, x8, x9, x10, x11, x12, x13, x14, x15] 15 0 + 1) % 256) := by
      refine inc_from_done _ 15 (by omega) ?_
      show (x15 + 1) % 256 ≠ 0
      omega
    refine ⟨[x6, x7, x8, x9, x10, x11, x12, x13, x14, (x15 + 1) % 256], ?_, rfl, ?_, ?_⟩
    · rw [d15] <;> rfl
    · intro y hy
      fin_cases hy <;> omega
    · simp only [foldVal, List.foldl]
      omega

